import Mathlib

/-!
Verification of the dsiot wire-value codec, parameter-tree query/merge and
per-family state mapping of the matterbridge-daikin-device plugin.

The numeric domain of the JavaScript source (IEEE numbers that in the code
only ever hold exact integers or small decimal quantities) is modelled by
the rationals; hex strings are modelled as lists of characters; fallible
code returns Except/Option.  JavaScript 32-bit coercions (ToInt32,
ToUint32, the shift operators) are modelled explicitly.
-/

/-- JavaScript Math.trunc on an exact rational: round toward zero. -/
def ratTrunc (q : ℚ) : ℤ := if 0 ≤ q then ⌊q⌋ else ⌈q⌉

/-- JavaScript ToUint32 applied to an exact rational: truncate toward zero,
then reduce modulo 2^32 to a non-negative representative. -/
def jsToUint32 (q : ℚ) : ℕ := ((ratTrunc q) % (2 ^ 32 : ℤ)).toNat

/-- JavaScript ToUint32 applied to an integer. -/
def jsToUint32I (n : ℤ) : ℕ := (n % (2 ^ 32 : ℤ)).toNat

/-- JavaScript ToInt32: reduce modulo 2^32 into [-2^31, 2^31). -/
def jsToInt32 (n : ℤ) : ℤ :=
  let m : ℤ := jsToUint32I n
  if m < 2 ^ 31 then m else m - 2 ^ 32

/-- Shift counts in JavaScript are ToUint32(rhs) taken modulo 32. -/
def jsShiftCount (n : ℤ) : ℕ := jsToUint32I n % 32

/-- JavaScript `a << b` on numbers: ToInt32 the operand, shift, wrap to int32. -/
def jsShl (a b : ℤ) : ℤ := jsToInt32 (jsToInt32 a * 2 ^ jsShiftCount b)

/-- JavaScript `a >> b` (sign-propagating right shift): arithmetic shift of the
int32 value, i.e. floor division by the power of two (Lean's `Int` division
is Euclidean division, which floors for a positive divisor). -/
def jsShrA (a b : ℤ) : ℤ := jsToInt32 a / 2 ^ jsShiftCount b

/-- Hex digit characters as produced by `Number.toString(16).toUpperCase()`. -/
def hexDigitChar (n : ℕ) : Char :=
  if n < 10 then Char.ofNat (48 + n) else Char.ofNat (65 + (n - 10))

/-- Numeric value of a hex digit character (`parseInt(_, 16)` accepts both
cases; any other character never occurs in the strings this code parses). -/
def hexVal (c : Char) : ℕ :=
  if 48 ≤ c.toNat ∧ c.toNat ≤ 57 then c.toNat - 48
  else if 97 ≤ c.toNat ∧ c.toNat ≤ 102 then c.toNat - 87
  else if 65 ≤ c.toNat ∧ c.toNat ≤ 70 then c.toNat - 55
  else 0

/-- Big-endian hex digits of `n`, least significant first, with explicit fuel
so that the definition is structurally recursive (fuel `n` always suffices). -/
def toHexRevF : ℕ → ℕ → List Char
  | 0, _ => []
  | f + 1, n => if n = 0 then [] else hexDigitChar (n % 16) :: toHexRevF f (n / 16)

/-- Hex digits of `n`, least significant first ([] for 0). -/
def toHexRev (n : ℕ) : List Char := toHexRevF n n

/-- `(u).toString(16).toUpperCase()` for a uint32 value `u`. -/
def jsNumToString16 (n : ℕ) : List Char :=
  if n = 0 then ['0'] else (toHexRev n).reverse

/-- `String.prototype.padStart(len, '0')`. -/
def padStartZero (l : List Char) (len : ℕ) : List Char :=
  List.replicate (len - l.length) '0' ++ l

/-- `String.prototype.slice(-len)`: the last `len` characters. -/
def sliceLast (l : List Char) (len : ℕ) : List Char :=
  l.drop (l.length - len)

/-- `parseInt(hex, 16)` on a string of hex digits. -/
def parseHexNat (l : List Char) : ℕ :=
  l.foldl (fun a c => a * 16 + hexVal c) 0

/-- Source `toSignedHex(num, bytes)`: render `num` as two's-complement
uppercase hex of the given byte width (JavaScript `(num >>> 0).toString(16)`,
zero-padded to `2*bytes` and truncated to its last `2*bytes` characters). -/
def toSignedHex (num : ℚ) (bytes : ℕ) : List Char :=
  let hex := jsNumToString16 (jsToUint32 num)
  let targetLength := bytes * 2
  sliceLast (padStartZero hex targetLength) targetLength

/-- Source `parseSignedHex(hex, bytes)`: parse as a two's-complement signed
integer via JavaScript's 32-bit shift pair `(num << shift) >> shift`. -/
def parseSignedHex (hex : List Char) (bytes : ℕ) : ℤ :=
  let num : ℤ := parseHexNat hex
  let bits : ℤ := bytes * 8
  let shift : ℤ := 32 - bits
  jsShrA (jsShl num shift) shift

/-- Split a hex string into its two-character byte groups (`slice(i, i+2)`);
a trailing odd character forms a final one-character group. -/
def chunkPairs : List Char → List (List Char)
  | [] => []
  | [a] => [[a]]
  | a :: b :: rest => [a, b] :: chunkPairs rest

/-- Source `convertEndian(value)`: reverse the byte (character-pair) order. -/
def convertEndian (value : List Char) : List Char :=
  ((chunkPairs value).reverse).flatten

/-- Field metadata: the step byte `st` and the declared max-value hex string
`mx` (null when absent). -/
structure Md where
  st : ℤ
  mx : Option (List Char)
deriving DecidableEq, Repr

/-- Source `getStepValueCoefficient(index)`: fixed power-of-ten table;
an out-of-range index raises a RangeError. -/
def getStepValueCoefficient (index : ℤ) : Except String ℚ :=
  let table : List ℚ :=
    [1, 1e1, 1e2, 1e3, 1e4, 1e5, 1e6, 1e7, 1e-8, 1e-7, 1e-6, 1e-5, 1e-4, 1e-3, 1e-2, 1e-1]
  if index < 0 ∨ 16 ≤ index then .error "RangeError"
  else .ok (table.getD index.toNat 0)

/-- Source `decodeStepValue(step)`: low nibble times the coefficient selected
by the high nibble; a step byte outside [0, 255] raises a RangeError. -/
def decodeStepValue (step : ℤ) : Except String ℚ :=
  if step < 0 ∨ (0xff : ℤ) < step then .error "RangeError"
  else
    let base : ℕ := step.toNat &&& 0x0f
    match getStepValueCoefficient ((step.toNat &&& 0xf0) >>> 4 : ℕ) with
    | .error e => .error e
    | .ok coefficient => .ok (base * coefficient)

/-- Source `decodePv(pv, md)`: reverse endianness, parse as a signed integer
of half the string's length in bytes, then apply the step scale. -/
def decodePv (pv : List Char) (md : Md) : Except String ℚ :=
  let swapped := convertEndian pv
  let base := parseSignedHex swapped (swapped.length / 2)
  match decodeStepValue md.st with
  | .error e => .error e
  | .ok step => .ok (if step = 0 then (base : ℚ) else base * step)

/-- Source `encodePv(value, md)`: divide by the step scale (skipped when the
scale is 0) and truncate, render as two's-complement hex sized from the
declared max-length, and reverse endianness. -/
def encodePv (value : ℚ) (md : Md) : Except String (List Char) :=
  match decodeStepValue md.st with
  | .error e => .error e
  | .ok step =>
    let pvNumber : ℚ := if step = 0 then value else (ratTrunc (value / step) : ℚ)
    let pv : List Char :=
      match md.mx with
      | some mx => toSignedHex pvNumber (mx.length / 2)
      | none => []
    .ok (convertEndian pv)

/-- Source `decodePvToInt(data)` applied to a present `[pv, md]` pair. -/
def decodePvToInt (pv : List Char) (md : Md) : Except String ℤ :=
  match decodePv pv md with
  | .error e => .error e
  | .ok decimalValue => .ok (ratTrunc decimalValue)

/-- Source `decodePvToFloat(data)` applied to a present `[pv, md]` pair. -/
def decodePvToFloat (pv : List Char) (md : Md) : Except String ℚ :=
  decodePv pv md

/-- Source `encodeIntToPv(data)`: truncate the value, then encode. -/
def encodeIntToPv (value : ℚ) (md : Md) : Except String (List Char) :=
  encodePv (ratTrunc value : ℚ) md

/-- Source `encodeFloatToPv(data)`: encode the value as is. -/
def encodeFloatToPv (value : ℚ) (md : Md) : Except String (List Char) :=
  encodePv value md

/-- Modelled from the spec's words for comparison ("the derived scale equals
(low nibble of b) * (table entry selected by the high nibble of b)"). -/
def specStepScale (b : ℕ) : ℚ :=
  let table : List ℚ :=
    [1, 1e1, 1e2, 1e3, 1e4, 1e5, 1e6, 1e7, 1e-8, 1e-7, 1e-6, 1e-5, 1e-4, 1e-3, 1e-2, 1e-1]
  ((b % 16 : ℕ) : ℚ) * table.getD (b / 16) 0

/-- A node of the dsiot parameter tree, as the JavaScript objects `{pn, pv?,
md?, pch?}`: a name plus optional leaf value, optional metadata and optional
children array.  (`combineObject` can produce nodes carrying both `pv` and
`pch`, so neither is made exclusive.) -/
inductive PTree where
  | mk (pn : String) (pv : Option (List Char)) (md : Option Md) (pch : Option (List PTree))

def PTree.pn : PTree → String
  | .mk a _ _ _ => a

def PTree.pv : PTree → Option (List Char)
  | .mk _ a _ _ => a

def PTree.md : PTree → Option Md
  | .mk _ _ a _ => a

def PTree.pch : PTree → Option (List PTree)
  | .mk _ _ _ a => a

/-- One entry of the wire response's `responses` array: the frame path `fr`
and the tree `pc.pch` below it. -/
structure FrameResp where
  fr : String
  pch : List PTree

/-- The `for (const response of ...) if (response['fr'] === fr)` loop shared
by every DsiotQuery method: the last matching response wins; when none
matches, the subsequent walk runs over the response objects themselves,
which carry no `pn`, and finds nothing. -/
def selectFrame (rs : List FrameResp) (fr : String) : Option (List PTree) :=
  rs.foldl (fun acc r => if r.fr = fr then some r.pch else acc) none

/-- Result of scanning one path segment's candidate children
(`extractValueString`'s inner loop): descend into a branch, return a leaf
value, or fall through to the next segment. -/
inductive ScanS where
  | descend (pch : List PTree)
  | leafHit (pv : List Char)
  | miss

/-- Inner loop of `extractValueString` for one path segment: the first child
whose `pn` matches and that has `pch` is descended into; a matching child
with `pv` returns it, but only on the last segment. -/
def scanS : List PTree → String → Bool → ScanS
  | [], _, _ => .miss
  | .mk pn pv _ pch :: rest, key, isLast =>
    match pch with
    | some ch => if pn = key then .descend ch else scanS rest key isLast
    | none =>
      match pv with
      | some v => if pn = key ∧ isLast then .leafHit v else scanS rest key isLast
      | none => scanS rest key isLast

/-- Outer loop of `extractValueString`: a segment with no usable match is
skipped (the walk keeps the current children and moves to the next segment),
and running out of segments yields `undefined`. -/
def walkS : List PTree → List String → Option (List Char)
  | _, [] => none
  | ts, key :: rest =>
    match scanS ts key rest.isEmpty with
    | .descend ch => walkS ch rest
    | .leafHit v => some v
    | .miss => walkS ts rest

/-- Result of scanning one path segment in the numeric walks
(`extractValueNumber` and `DsiotQuery.encodePv`): these accept a leaf only
when it carries both `pv` and `md`. -/
inductive ScanN where
  | descend (pch : List PTree)
  | leafHit (pv : List Char) (md : Md)
  | miss

/-- Inner loop of `extractValueNumber` / `DsiotQuery.encodePv` for one path
segment. -/
def scanN : List PTree → String → Bool → ScanN
  | [], _, _ => .miss
  | .mk pn pv md pch :: rest, key, isLast =>
    match pch with
    | some ch => if pn = key then .descend ch else scanN rest key isLast
    | none =>
      match pv, md with
      | some v, some m => if pn = key ∧ isLast then .leafHit v m else scanN rest key isLast
      | _, _ => scanN rest key isLast

/-- Outer loop of `extractValueNumber` / `DsiotQuery.encodePv`, recording the
segments that actually matched (the constructed fragment chain) together with
the leaf's value and metadata.  `DsiotQuery.encodePv` builds its fragment
from exactly these matched segments. -/
def walkNE : List PTree → List String → Option (List String × List Char × Md)
  | _, [] => none
  | ts, key :: rest =>
    match scanN ts key rest.isEmpty with
    | .descend ch =>
      match walkNE ch rest with
      | some (segs, v, m) => some (key :: segs, v, m)
      | none => none
    | .leafHit v m => some ([key], v, m)
    | .miss => walkNE ts rest

/-- Helper for `jsSplit`: accumulate the current segment (reversed). -/
def jsSplitGo (sep : Char) : List Char → List Char → List String
  | [], acc => [String.mk acc.reverse]
  | c :: rest, acc =>
    if c = sep then String.mk acc.reverse :: jsSplitGo sep rest []
    else jsSplitGo sep rest (c :: acc)

/-- JavaScript `path.split('/')` for a single-character separator. -/
def jsSplit (sep : Char) (s : String) : List String :=
  jsSplitGo sep s.toList []

/-- The responses snapshot held by a `DsiotQuery`: `none` models
`responsesData === undefined` or a document without a `responses` member. -/
abbrev RespData := Option (List FrameResp)

/-- Source `DsiotQuery.extractValueString(fr, path)`: non-fatal, absent
values are `undefined`. -/
def extractValueString (rd : RespData) (fr path : String) : Option (List Char) :=
  match rd with
  | none => none
  | some rs =>
    match selectFrame rs fr with
    | some ts => walkS ts (jsSplit '/' path)
    | none => none

/-- Source `DsiotQuery.extractValueNumber(fr, path)` (private): fatal, a
missing responses object or unresolved path throws. -/
def extractValueNumber (rd : RespData) (fr path : String) :
    Except String (List Char × Md) :=
  match rd with
  | none => .error "No responses object found"
  | some rs =>
    match selectFrame rs fr with
    | some ts =>
      match walkNE ts (jsSplit '/' path) with
      | some (_, v, m) => .ok (v, m)
      | none => .error ("No value found for path:" ++ path)
    | none => .error ("No value found for path:" ++ path)

/-- Source `DsiotQuery.extractValueInt(fr, path)`. -/
def extractValueInt (rd : RespData) (fr path : String) : Except String ℤ :=
  match extractValueNumber rd fr path with
  | .error e => .error e
  | .ok (v, m) => decodePvToInt v m

/-- Source `DsiotQuery.extractValueFloat(fr, path)`. -/
def extractValueFloat (rd : RespData) (fr path : String) : Except String ℚ :=
  match extractValueNumber rd fr path with
  | .error e => .error e
  | .ok (v, m) => decodePvToFloat v m

/-- The minimal fragment `DsiotQuery.encodePv` builds along its matched
segments: a chain of `{pn, pch}` branches ending in a `{pn, pv}` leaf. -/
def chainOf : List String → List Char → List PTree
  | [], _ => []
  | [k], epv => [.mk k (some epv) none none]
  | k :: rest, epv => [.mk k none none (some (chainOf rest epv))]

/-- Source `DsiotQuery.encodePv(fr, path, pv, encoder)` (private): walk the
last-known tree to the leaf's metadata and return the minimal fragment with
the encoded value (the incrementally built fragment is discarded when the
walk ends without reaching a metadata-bearing leaf, which throws). -/
def qEncodePv (rd : RespData) (fr path : String) (pv : ℚ)
    (encoder : ℚ → Md → Except String (List Char)) : Except String (List PTree) :=
  match rd with
  | none => .error "No responses object found"
  | some rs =>
    match selectFrame rs fr with
    | some ts =>
      match walkNE ts (jsSplit '/' path) with
      | some (segs, _, m) =>
        match encoder pv m with
        | .ok epv => .ok (chainOf segs epv)
        | .error e => .error e
      | none => .error ("No value found for path:" ++ path)
    | none => .error ("No value found for path:" ++ path)

/-- Source `DsiotQuery.encodePvInt(fr, path, pv)`. -/
def encodePvInt (rd : RespData) (fr path : String) (pv : ℚ) : Except String (List PTree) :=
  qEncodePv rd fr path pv encodeIntToPv

/-- Source `DsiotQuery.encodePvFloat(fr, path, pv)`. -/
def encodePvFloat (rd : RespData) (fr path : String) (pv : ℚ) : Except String (List PTree) :=
  qEncodePv rd fr path pv encodeFloatToPv

mutual

/-- Source `DsiotQuery.combineObject(dst, src)`: merge the fragment `src`
into `dst` child by child.  `none` models the TypeError raised when the
recursion pushes onto an absent `pch` array. -/
def combineObject : List PTree → List PTree → Option (List PTree)
  | dst, [] => some dst
  | dst, s :: srest =>
    match combineOne dst s with
    | some dst2 => combineObject dst2 srest
    | none => none
termination_by _dst src => (sizeOf src, 0)

/-- Process a single `src` child: overwrite the first same-named child's
leaf value, or recurse into its children, or append when unmatched. -/
def combineOne : List PTree → PTree → Option (List PTree)
  | [], s => some [s]
  | .mk dpn dpv dmd dpch :: drest, s =>
    match s with
    | .mk spn spv smd spch =>
      if dpn = spn then
        match spv with
        | some v => some (.mk dpn (some v) dmd dpch :: drest)
        | none =>
          match spch with
          | none => some (.mk dpn dpv dmd dpch :: drest)
          | some sch =>
            match dpch with
            | some dch =>
              match combineObject dch sch with
              | some r => some (.mk dpn dpv dmd (some r) :: drest)
              | none => none
            | none =>
              if sch.isEmpty then some (.mk dpn dpv dmd dpch :: drest) else none
      else
        match combineOne drest (.mk spn spv smd spch) with
        | some r => some (.mk dpn dpv dmd dpch :: r)
        | none => none
termination_by dst s => (sizeOf s, dst.length)

end

/-- The air-conditioner operating modes (`DaikinModeAC`, wire codes in the
source comments). -/
inductive DaikinModeAC where
  | Auto | Dry | Cool | Heat | Humidify | FanOnly
deriving DecidableEq

/-- Source `TargetTemperaturePnMap`: the per-mode parameter name of the
target-temperature field (undefined for modes without one). -/
def TargetTemperaturePnMap : DaikinModeAC → Option String
  | .Heat => some "p_03"
  | .Cool => some "p_02"
  | .Auto => some "p_1F"
  | .Dry => none
  | .Humidify => none
  | .FanOnly => none

/-- Source `DaikinDeviceACAttributes.setTargetTemperature`: encode the
operation-sound field and the mode's target-temperature field from the
last-known tree and merge the two fragments (`operationSound` defaults to
`RemoconSoundOnly = 4` at every call site in the device class).  Returns
`.ok none` for the source's `return undefined` when the mode has no
target-temperature parameter. -/
def setTargetTemperature (lastResponse : RespData) (operationMode : DaikinModeAC)
    (temperature : ℚ) (operationSound : ℚ) : Except String (Option (List PTree)) :=
  match TargetTemperaturePnMap operationMode with
  | none => .ok none
  | some pn =>
    match encodePvInt lastResponse "/dsiot/edge/adr_0100.dgc_status" "e_1002/e_3003/p_2D"
        operationSound with
    | .error e => .error e
    | .ok pvOperationSoundObj =>
      match encodePvFloat lastResponse "/dsiot/edge/adr_0100.dgc_status"
          ("e_1002/e_3001/" ++ pn) temperature with
      | .error e => .error e
      | .ok pvObj =>
        match combineObject pvOperationSoundObj pvObj with
        | some command => .ok (some command)
        | none => .error "TypeError"

namespace DaikinDeviceAPAttributes

/-- JavaScript string coercion used by `getDeviceType`'s `+`: an absent
operand concatenates as the text "undefined". -/
def jsStr (o : Option (List Char)) : List Char :=
  match o with
  | some s => s
  | none => "undefined".toList

/-- JavaScript falsiness of a possibly-absent string: `undefined` and the
empty string are falsy. -/
def jsFalsyStr (o : Option (List Char)) : Bool :=
  match o with
  | none => true
  | some [] => true
  | some _ => false

/-- Source `DaikinModeAPForceAutoHumidifyMap`: `true` exactly for `Auto = 0`
and `Throat = 5`; looking up a value outside the enum yields `undefined`,
which is falsy. -/
def DaikinModeAPForceAutoHumidifyMap (mode : ℤ) : Bool :=
  mode == 0 || mode == 5

def getMacAddress (response : RespData) : Option (List Char) :=
  extractValueString response "/dsiot/edge.adp_i" "mac"

def getSSID (response : RespData) : Option (List Char) :=
  extractValueString response "/dsiot/edge.adp_i" "ssid"

def getDeviceName (response : RespData) : Option (List Char) :=
  extractValueString response "/dsiot/edge.adp_d" "name"

def getDeviceReg (response : RespData) : Option (List Char) :=
  extractValueString response "/dsiot/edge.adp_i" "reg"

def getDeviceType (response : RespData) : List Char :=
  jsStr (extractValueString response "/dsiot/edge.dev_i" "type") ++
    jsStr (extractValueString response "/dsiot/edge.adp_i" "enlv")

def getFirmwareVersion (response : RespData) : Option (List Char) :=
  extractValueString response "/dsiot/edge.adp_i" "ver"

def getPowerStatus (response : RespData) : Bool :=
  extractValueString response "/dsiot/edge/adr_0100.dgc_status" "e_1002/e_A002/p_01"
    == some ['0', '1']

def getIndoorTemperature (response : RespData) : Except String ℤ :=
  extractValueInt response "/dsiot/edge/adr_0100.dgc_status" "e_1002/e_A00B/p_01"

def getIndoorHumidity (response : RespData) : Except String ℤ :=
  extractValueInt response "/dsiot/edge/adr_0100.dgc_status" "e_1002/e_A00B/p_02"

def getWaterTankEmpty (response : RespData) : Bool :=
  extractValueString response "/dsiot/edge/adr_0100.dgc_status" "e_1002/e_3007/p_20"
    == some ['0', '1']

/-- `p_3F !== '00'`: an absent value also compares unequal. -/
def getIsFixedHumidify (response : RespData) : Bool :=
  !(extractValueString response "/dsiot/edge/adr_0100.dgc_status" "e_1002/e_3001/p_3F"
    == some ['0', '0'])

/-- The mode is read from `p_01` or `p_03` depending on the fixed-humidify
discriminant; the wire value is returned as is (modes: Auto 0, FixedFlow 1,
FlowAuto 2, Eco 3, Pollen 4, Throat 5, Circulator 6). -/
def getOperationMode (response : RespData) : Except String ℤ :=
  let isFixedHumidify := getIsFixedHumidify response
  let path := if !isFixedHumidify then "e_1002/e_3007/p_01" else "e_1002/e_3007/p_03"
  extractValueInt response "/dsiot/edge/adr_0100.dgc_status" path

/-- Fan speed is forced to `Auto = 100` outside `FixedFlow = 1`; otherwise it
is read from `p_04` or `p_06` depending on the fixed-humidify discriminant. -/
def getFanSpeed (response : RespData) : Except String ℤ :=
  match getOperationMode response with
  | .error e => .error e
  | .ok operationMode =>
    if operationMode ≠ 1 then .ok 100
    else
      let isFixedHumidify := getIsFixedHumidify response
      let path := if !isFixedHumidify then "e_1002/e_3007/p_04" else "e_1002/e_3007/p_06"
      extractValueInt response "/dsiot/edge/adr_0100.dgc_status" path

def getPm25SensorLevel (response : RespData) : Except String ℤ :=
  match extractValueInt response "/dsiot/edge/adr_0100.dgc_status" "e_1002/e_3007/p_1D" with
  | .error e => .error e
  | .ok v => .ok (v + 1)

def getDustSensorLevel (response : RespData) : Except String ℤ :=
  match extractValueInt response "/dsiot/edge/adr_0100.dgc_status" "e_1002/e_3007/p_1E" with
  | .error e => .error e
  | .ok v => .ok (v + 1)

def getSmellSensorLevel (response : RespData) : Except String ℤ :=
  match extractValueInt response "/dsiot/edge/adr_0100.dgc_status" "e_1002/e_3007/p_1F" with
  | .error e => .error e
  | .ok v => .ok (v + 1)

/-- Source `DaikinDeviceAPAttributes.getHumidifyLevel`: a force-auto-humidify
mode yields `Auto = 100` unconditionally; otherwise `Off = 0` when humidify
is not fixed, else the stored level `p_13`. -/
def getHumidifyLevel (response : RespData) : Except String ℤ :=
  match getOperationMode response with
  | .error e => .error e
  | .ok operationMode =>
    if DaikinModeAPForceAutoHumidifyMap operationMode then .ok 100
    else if !(getIsFixedHumidify response) then .ok 0
    else extractValueInt response "/dsiot/edge/adr_0100.dgc_status" "e_1002/e_3007/p_13"

end DaikinDeviceAPAttributes

/-- The decoded `DaikinStateAP` (string getters use the TypeScript `!`
assertion, which performs no runtime check, so those fields may hold
`undefined`; numeric getters throw when absent). -/
structure DaikinStateAP where
  macAddress : Option (List Char)
  deviceName : Option (List Char)
  deviceType : List Char
  deviceReg : Option (List Char)
  firmwareVersion : Option (List Char)
  ssid : Option (List Char)
  power : Bool
  mode : ℤ
  fanSpeed : ℤ
  humidifyLevel : ℤ
  indoorTemperature : ℤ
  indoorHumidity : ℤ
  pm25SensorLevel : ℤ
  dustSensorLevel : ℤ
  smellSensorLevel : ℤ
  waterTankEmpty : Bool

/-- Source `DaikinDeviceAPAttributes.getCurrentStatus`: build the full state;
any extractor failure aborts the whole decode. -/
def getCurrentStatus (response : RespData) : Except String DaikinStateAP := do
  let macAddress := DaikinDeviceAPAttributes.getMacAddress response
  let deviceName := DaikinDeviceAPAttributes.getDeviceName response
  let deviceType := DaikinDeviceAPAttributes.getDeviceType response
  let deviceReg := DaikinDeviceAPAttributes.getDeviceReg response
  let firmwareVersion := DaikinDeviceAPAttributes.getFirmwareVersion response
  let ssid := DaikinDeviceAPAttributes.getSSID response
  let power := DaikinDeviceAPAttributes.getPowerStatus response
  let mode ← DaikinDeviceAPAttributes.getOperationMode response
  let fanSpeed ← DaikinDeviceAPAttributes.getFanSpeed response
  let humidifyLevel ← DaikinDeviceAPAttributes.getHumidifyLevel response
  let indoorTemperature ← DaikinDeviceAPAttributes.getIndoorTemperature response
  let indoorHumidity ← DaikinDeviceAPAttributes.getIndoorHumidity response
  let pm25SensorLevel ← DaikinDeviceAPAttributes.getPm25SensorLevel response
  let dustSensorLevel ← DaikinDeviceAPAttributes.getDustSensorLevel response
  let smellSensorLevel ← DaikinDeviceAPAttributes.getSmellSensorLevel response
  let waterTankEmpty := DaikinDeviceAPAttributes.getWaterTankEmpty response
  return { macAddress, deviceName, deviceType, deviceReg, firmwareVersion, ssid,
           power, mode, fanSpeed, humidifyLevel, indoorTemperature, indoorHumidity,
           pm25SensorLevel, dustSensorLevel, smellSensorLevel, waterTankEmpty }

/-- The engine fields mutated by `fetchDeviceStatus` (both start
`undefined`). -/
structure EngineState where
  currentState : Option DaikinStateAP
  lastQueryResponse : Option RespData

/-- Source `DaikinAPMatterDeviceACK70Z.fetchDeviceStatus`, as a transition on
the engine fields.  `queryResponse = none` models the transport yielding no
response (the guarded `undefined` check / the throw inside `queryDevice`);
the pair's second component is the thrown error, the first the resulting
engine fields. -/
def fetchDeviceStatus (self : EngineState) (queryResponse : Option RespData) :
    EngineState × Except String Unit :=
  match queryResponse with
  | none => (self, .error "No response from device")
  | some q =>
    match getCurrentStatus q with
    | .error e => (self, .error e)
    | .ok status =>
      if DaikinDeviceAPAttributes.jsFalsyStr status.macAddress then
        (self, .error "no MAC address found")
      else
        ({ currentState := some status, lastQueryResponse := some q }, .ok ())

/-- The air-purifier fan-speed enum (`DaikinFanSpeedAP`; `Auto = 100` is a
placeholder the percent mapping never returns). -/
inductive DaikinFanSpeedAP where
  | Silent | Speed1 | Speed2 | Speed3 | Auto
deriving DecidableEq

/-- Source `getDaikinFanSpeedAPFromPercent`. -/
def getDaikinFanSpeedAPFromPercent (percent : ℤ) : DaikinFanSpeedAP :=
  if percent ≤ 0 then .Silent
  else if percent ≤ 33 then .Speed1
  else if percent ≤ 66 then .Speed2
  else .Speed3

/-- Source `getPercentFromDaikinFanSpeedAP` (the `default` branch returns 0). -/
def getPercentFromDaikinFanSpeedAP : DaikinFanSpeedAP → ℤ
  | .Silent => 0
  | .Speed1 => 33
  | .Speed2 => 66
  | .Speed3 => 100
  | .Auto => 0

/-- The air-purifier humidify-level enum (`DaikinHumidifyLevelAP`). -/
inductive DaikinHumidifyLevelAP where
  | Off | Low | Medium | High | Auto
deriving DecidableEq

/-- Source `getDaikinHumidifyLevelAPFromPercent`. -/
def getDaikinHumidifyLevelAPFromPercent (percent : ℤ) : DaikinHumidifyLevelAP :=
  if percent ≤ 0 then .Off
  else if percent ≤ 33 then .Low
  else if percent ≤ 66 then .Medium
  else .High

/-- Source `getPercentFromDaikinHumidifyLevelAP` (the `default` branch
returns 0). -/
def getPercentFromDaikinHumidifyLevelAP : DaikinHumidifyLevelAP → ℤ
  | .Off => 0
  | .Low => 33
  | .Medium => 66
  | .High => 100
  | .Auto => 0

/-- The air-conditioner fan-speed enum (`DaikinFanSpeedAC`). -/
inductive DaikinFanSpeedAC where
  | Auto | Silent | Speed1 | Speed2 | Speed3 | Speed4 | Speed5
deriving DecidableEq

/-- Source `getDaikinFanSpeedACFromPercent`. -/
def getDaikinFanSpeedACFromPercent (percent : ℤ) : DaikinFanSpeedAC :=
  if percent ≤ 0 then .Auto
  else if percent ≤ 10 then .Silent
  else if percent ≤ 20 then .Speed1
  else if percent ≤ 30 then .Speed2
  else if percent ≤ 40 then .Speed3
  else if percent ≤ 50 then .Speed4
  else .Speed5

/-- Source `getPercentFromDaikinFanSpeedAC` (the `default` branch returns 0;
this is also the family's ordering of its levels, used below as the level
order). -/
def getPercentFromDaikinFanSpeedAC : DaikinFanSpeedAC → ℤ
  | .Auto => 0
  | .Silent => 10
  | .Speed1 => 20
  | .Speed2 => 30
  | .Speed3 => 40
  | .Speed4 => 50
  | .Speed5 => 100

/-- First child with the given name (observer for stating the merge
properties; mirrors the first-match rule of `combineObject`'s inner loop). -/
def findChild : List PTree → String → Option PTree
  | [], _ => none
  | t :: rest, key => if t.pn = key then some t else findChild rest key

/-- Observer: the leaf value reached by following first-match children along
a path. -/
def obs : List PTree → List String → Option (List Char)
  | _, [] => none
  | ts, k :: rest =>
    match findChild ts k with
    | none => none
    | some n =>
      match rest with
      | [] => n.pv
      | _ =>
        match n.pch with
        | some ch => obs ch rest
        | none => none

/-- A path along which merging a single-leaf chain patch cannot hit the
TypeError of pushing onto an absent `pch`: wherever the destination has a
same-named child before the last segment, that child has children. -/
def compat : List PTree → List String → Bool
  | _, [] => true
  | ts, k :: rest =>
    match findChild ts k with
    | none => true
    | some n =>
      match rest with
      | [] => true
      | _ =>
        match n.pch with
        | some ch => compat ch rest
        | none => false

/-- Overwrite a node's leaf value (what `combineObject` does to a matched
destination child when the source child is a leaf). -/
def setPvNode (t : PTree) (v : List Char) : PTree :=
  .mk t.pn (some v) t.md t.pch

/-- Replace a node's children (the result of `combineObject` recursing into a
matched destination child when the source child is a branch). -/
def setPchNode (t : PTree) (ch : List PTree) : PTree :=
  .mk t.pn t.pv t.md (some ch)

/-- The wire integer a value encodes to under a step scale (the claim's
"value truncated to the metadata's step granularity" before re-scaling). -/
def wireInt (value s : ℚ) : ℤ :=
  if s = 0 then ratTrunc value else ratTrunc (value / s)

/-- Fixture: a snapshot of the AC frame containing the cooling-temperature
field `e_1002/e_3001/p_02` (step 0.5, two bytes) and the operation-sound
field `e_1002/e_3003/p_2D` (step 0, one byte). -/
def fixAC : RespData :=
  some [⟨"/dsiot/edge/adr_0100.dgc_status",
    [.mk "e_1002" none none (some
      [.mk "e_3001" none none (some
        [.mk "p_02" (some ['0', '0', '3', '3']) (some ⟨0xF5, some ['0', '2', '0', '0']⟩) none]),
       .mk "e_3003" none none (some
        [.mk "p_2D" (some ['0', '4']) (some ⟨0, some ['0', '0']⟩) none])])]⟩]

/-- Fixture: a snapshot of the AP frame reporting fixed humidify (`p_3F` =
"02"), mode `Auto = 0` (via the fixed-humidify mode field `p_03`) and a
stored fixed humidify level `p_13` = 3. -/
def fixAP : RespData :=
  some [⟨"/dsiot/edge/adr_0100.dgc_status",
    [.mk "e_1002" none none (some
      [.mk "e_3001" none none (some
        [.mk "p_3F" (some ['0', '2']) none none]),
       .mk "e_3007" none none (some
        [.mk "p_03" (some ['0', '0']) (some ⟨0, some ['0', '0']⟩) none,
         .mk "p_13" (some ['0', '3']) (some ⟨0, some ['0', '0']⟩) none])])]⟩]

/-! ## Lemmas about the hex-string primitives -/

theorem toHexRevF_congr : ∀ f₁ f₂ n, n ≤ f₁ → n ≤ f₂ →
    toHexRevF f₁ n = toHexRevF f₂ n := by
  intro f₁
  induction f₁ using Nat.strong_induction_on with
  | _ f₁ ih =>
    intro f₂ n h1 h2
    cases f₁ with
    | zero =>
      have hn : n = 0 := by omega
      subst hn
      cases f₂ <;> simp [toHexRevF]
    | succ f₁ =>
      cases f₂ with
      | zero =>
        have hn : n = 0 := by omega
        subst hn
        simp [toHexRevF]
      | succ f₂ =>
        simp only [toHexRevF]
        by_cases hn : n = 0
        · simp [hn]
        · simp only [hn, if_false]
          rw [ih f₁ (Nat.lt_succ_self f₁) f₂ (n / 16) (by omega) (by omega)]

theorem hexVal_lt (c : Char) : hexVal c < 16 := by
  unfold hexVal
  split_ifs <;> omega

theorem hexVal_hexDigitChar : ∀ n : Fin 16, hexVal (hexDigitChar n) = n := by decide

theorem hexVal_zeroChar : hexVal '0' = 0 := by decide

theorem parseHexNat_foldl_init (l : List Char) :
    ∀ a : ℕ, List.foldl (fun a c => a * 16 + hexVal c) a l =
      a * 16 ^ l.length + parseHexNat l := by
  induction l with
  | nil => intro a; simp [parseHexNat]
  | cons c t ih =>
    intro a
    simp only [List.foldl_cons, parseHexNat, List.length_cons]
    rw [ih (a * 16 + hexVal c), ih (0 * 16 + hexVal c)]
    ring

theorem parseHexNat_cons (c : Char) (t : List Char) :
    parseHexNat (c :: t) = hexVal c * 16 ^ t.length + parseHexNat t := by
  have := parseHexNat_foldl_init t (0 * 16 + hexVal c)
  simpa [parseHexNat] using this

theorem parseHexNat_append (a b : List Char) :
    parseHexNat (a ++ b) = parseHexNat a * 16 ^ b.length + parseHexNat b := by
  simp only [parseHexNat, List.foldl_append]
  rw [parseHexNat_foldl_init b (List.foldl (fun a c => a * 16 + hexVal c) 0 a)]
  rfl

theorem parseHexNat_lt (l : List Char) : parseHexNat l < 16 ^ l.length := by
  induction l with
  | nil => simp [parseHexNat]
  | cons c t ih =>
    rw [parseHexNat_cons]
    have hc := hexVal_lt c
    have : hexVal c * 16 ^ t.length + parseHexNat t < (hexVal c + 1) * 16 ^ t.length := by
      have := Nat.pos_pow_of_pos (n := 16) t.length (by norm_num)
      nlinarith
    calc hexVal c * 16 ^ t.length + parseHexNat t
        < (hexVal c + 1) * 16 ^ t.length := this
      _ ≤ 16 * 16 ^ t.length := by
          have : hexVal c + 1 ≤ 16 := by omega
          exact Nat.mul_le_mul_right _ this
      _ = 16 ^ (t.length + 1) := by ring

theorem parseHexNat_replicate_zero (k : ℕ) :
    parseHexNat (List.replicate k '0') = 0 := by
  induction k with
  | zero => simp [parseHexNat]
  | succ k ih =>
    rw [List.replicate_succ, parseHexNat_cons, ih, hexVal_zeroChar]
    simp

theorem parseHexNat_toHexRevF : ∀ f n, n ≤ f →
    parseHexNat (toHexRevF f n).reverse = n := by
  intro f
  induction f using Nat.strong_induction_on with
  | _ f ih =>
    intro n hn
    cases f with
    | zero =>
      have : n = 0 := by omega
      subst this
      simp [toHexRevF, parseHexNat]
    | succ f =>
      by_cases h0 : n = 0
      · subst h0; simp [toHexRevF, parseHexNat]
      · simp only [toHexRevF, h0, if_false, List.reverse_cons]
        rw [parseHexNat_append]
        have hdiv : n / 16 < n := Nat.div_lt_self (Nat.pos_of_ne_zero h0) (by norm_num)
        rw [ih f (Nat.lt_succ_self f) (n / 16) (by omega)]
        have hd : parseHexNat [hexDigitChar (n % 16)] = n % 16 := by
          have : hexVal (hexDigitChar (n % 16)) = n % 16 :=
            hexVal_hexDigitChar ⟨n % 16, Nat.mod_lt n (by norm_num)⟩
          simp [parseHexNat, this]
        rw [hd]
        simp only [List.length_singleton, pow_one]
        omega

theorem toHexRevF_length_le : ∀ f n k, n ≤ f → n < 16 ^ k →
    (toHexRevF f n).length ≤ k := by
  intro f
  induction f using Nat.strong_induction_on with
  | _ f ih =>
    intro n k hn hk
    cases f with
    | zero =>
      have : n = 0 := by omega
      subst this
      simp [toHexRevF]
    | succ f =>
      by_cases h0 : n = 0
      · subst h0; simp [toHexRevF]
      · simp only [toHexRevF, h0, if_false, List.length_cons]
        have hdiv : n / 16 < n := Nat.div_lt_self (Nat.pos_of_ne_zero h0) (by norm_num)
        have hkpos : 1 ≤ k := by
          by_contra hc
          have : k = 0 := by omega
          subst this
          simp at hk
          omega
        have : n / 16 < 16 ^ (k - 1) := by
          have h16 : n < 16 ^ k := hk
          have : 16 ^ k = 16 ^ (k - 1) * 16 := by
            conv_lhs => rw [show k = (k - 1) + 1 by omega]
            ring
          rw [this] at h16
          omega
        have := ih f (Nat.lt_succ_self f) (n / 16) (k - 1) (by omega) this
        omega

theorem toHexRevF_length_ge : ∀ f n k, n ≤ f → 16 ^ k ≤ n →
    k + 1 ≤ (toHexRevF f n).length := by
  intro f
  induction f using Nat.strong_induction_on with
  | _ f ih =>
    intro n k hn hk
    have hnpos : 0 < n := lt_of_lt_of_le (Nat.pos_pow_of_pos k (by norm_num)) hk
    cases f with
    | zero => omega
    | succ f =>
      have h0 : n ≠ 0 := by omega
      simp only [toHexRevF, h0, if_false, List.length_cons]
      cases k with
      | zero => omega
      | succ k =>
        have hdiv : n / 16 < n := Nat.div_lt_self hnpos (by norm_num)
        have hk' : 16 ^ k ≤ n / 16 := by
          have : 16 ^ (k + 1) = 16 ^ k * 16 := by ring
          rw [this] at hk
          omega
        have := ih f (Nat.lt_succ_self f) (n / 16) k (by omega) hk'
        omega

theorem jsToUint32_lt (q : ℚ) : jsToUint32 q < 2 ^ 32 := by
  unfold jsToUint32
  have h1 : (0 : ℤ) ≤ ratTrunc q % 2 ^ 32 := Int.emod_nonneg _ (by norm_num)
  have h2 : ratTrunc q % 2 ^ 32 < 2 ^ 32 := Int.emod_lt_of_pos _ (by norm_num)
  omega

theorem parseHexNat_jsNumToString16 (u : ℕ) :
    parseHexNat (jsNumToString16 u) = u := by
  unfold jsNumToString16
  by_cases h : u = 0
  · simp [h, parseHexNat, hexVal_zeroChar]
  · simp only [h, if_false]
    exact parseHexNat_toHexRevF u u le_rfl

theorem jsNumToString16_length_le (u k : ℕ) (hk : 1 ≤ k) (hu : u < 16 ^ k) :
    (jsNumToString16 u).length ≤ k := by
  unfold jsNumToString16
  by_cases h : u = 0
  · simp [h]; omega
  · simp only [h, if_false, List.length_reverse]
    exact toHexRevF_length_le u u k le_rfl hu

theorem parseHexNat_drop (l : List Char) (j : ℕ) :
    parseHexNat (l.drop j) = parseHexNat l % 16 ^ (l.length - j) := by
  have h1 : parseHexNat (List.take j l ++ List.drop j l) =
      parseHexNat (List.take j l) * 16 ^ (l.length - j) + parseHexNat (List.drop j l) := by
    rw [parseHexNat_append]
    congr 2
    simp
  rw [List.take_append_drop] at h1
  rw [h1, Nat.mul_comm, Nat.mul_add_mod]
  have h2 := parseHexNat_lt (l.drop j)
  rw [List.length_drop] at h2
  exact (Nat.mod_eq_of_lt h2).symm

theorem toSignedHex_spec (q : ℚ) (B : ℕ) (hB : 1 ≤ B) :
    parseHexNat (toSignedHex q B) = jsToUint32 q % 16 ^ (B * 2) ∧
      (toSignedHex q B).length = B * 2 := by
  unfold toSignedHex
  dsimp only
  set u := jsToUint32 q with hu
  set hex := jsNumToString16 u with hhex
  have hparse : parseHexNat hex = u := parseHexNat_jsNumToString16 u
  by_cases hle : hex.length ≤ B * 2
  · have hpadlen : (padStartZero hex (B * 2)).length = B * 2 := by
      unfold padStartZero
      simp
      omega
    have hslice : sliceLast (padStartZero hex (B * 2)) (B * 2) = padStartZero hex (B * 2) := by
      unfold sliceLast
      rw [hpadlen]
      simp
    rw [hslice]
    have hppad : parseHexNat (padStartZero hex (B * 2)) = u := by
      unfold padStartZero
      rw [parseHexNat_append, parseHexNat_replicate_zero, hparse]
      simp
    refine ⟨?_, hpadlen⟩
    rw [hppad]
    have hu16 : u < 16 ^ (B * 2) := by
      have h1 := parseHexNat_lt hex
      rw [hparse] at h1
      calc u < 16 ^ hex.length := h1
        _ ≤ 16 ^ (B * 2) := Nat.pow_le_pow_right (by norm_num) hle
    exact (Nat.mod_eq_of_lt hu16).symm
  · have hpad : padStartZero hex (B * 2) = hex := by
      unfold padStartZero
      have : B * 2 - hex.length = 0 := by omega
      rw [this]
      simp
    rw [hpad]
    unfold sliceLast
    constructor
    · rw [parseHexNat_drop hex (hex.length - (B * 2)), hparse,
        (by omega : hex.length - (hex.length - B * 2) = B * 2)]
    · simp
      omega

theorem chunkPairs_flatten : ∀ l : List Char, (chunkPairs l).flatten = l
  | [] => by simp [chunkPairs]
  | [a] => by simp [chunkPairs]
  | a :: b :: rest => by simp [chunkPairs, chunkPairs_flatten rest]

theorem convertEndian_length (l : List Char) : (convertEndian l).length = l.length := by
  unfold convertEndian
  rw [List.length_flatten, List.map_reverse, List.sum_reverse, ← List.length_flatten,
    chunkPairs_flatten]

theorem chunkPairs_length_two : ∀ l : List Char, 2 ∣ l.length →
    ∀ c ∈ chunkPairs l, c.length = 2
  | [], _, c, hc => by simp [chunkPairs] at hc
  | [a], h, c, hc => by simp at h
  | a :: b :: rest, h, c, hc => by
    simp only [chunkPairs, List.mem_cons] at hc
    rcases hc with rfl | hc
    · rfl
    · exact chunkPairs_length_two rest (by simp at h ⊢; omega) c hc

theorem chunkPairs_flatten_of_two : ∀ cs : List (List Char),
    (∀ c ∈ cs, c.length = 2) → chunkPairs cs.flatten = cs
  | [], _ => by simp [chunkPairs]
  | c :: cs, h => by
    have hc : c.length = 2 := h c (by simp)
    obtain ⟨x, y, rfl⟩ : ∃ x y, c = [x, y] := by
      match c, hc with
      | [x, y], _ => exact ⟨x, y, rfl⟩
    have hf : ([x, y] :: cs).flatten = x :: y :: cs.flatten := by simp
    rw [hf]
    show [x, y] :: chunkPairs cs.flatten = [x, y] :: cs
    rw [chunkPairs_flatten_of_two cs (fun d hd => h d (by simp [hd]))]

theorem convertEndian_convertEndian (l : List Char) (h2 : 2 ∣ l.length) :
    convertEndian (convertEndian l) = l := by
  unfold convertEndian
  rw [chunkPairs_flatten_of_two ((chunkPairs l).reverse)
    (fun c hc => chunkPairs_length_two l h2 c (List.mem_reverse.mp hc))]
  rw [List.reverse_reverse, chunkPairs_flatten]

theorem jsShiftCount_small (n : ℤ) (h0 : 0 ≤ n) (h32 : n < 32) :
    jsShiftCount n = n.toNat := by
  unfold jsShiftCount jsToUint32I
  rw [Int.emod_eq_of_lt h0 (by omega)]
  exact Nat.mod_eq_of_lt (by omega)

theorem jsToInt32_idem (x : ℤ) : jsToInt32 (jsToInt32 x) = jsToInt32 x := by
  simp only [jsToInt32, jsToUint32I]
  split_ifs <;> omega

theorem int32_shift_core (v : ℕ) (sh : ℕ)
    (hsh : sh = 0 ∨ sh = 8 ∨ sh = 16 ∨ sh = 24) (hv : v < 2 ^ (32 - sh)) :
    jsToInt32 (jsToInt32 (v : ℤ) * 2 ^ sh) / 2 ^ sh =
      (if v < 2 ^ (32 - sh - 1) then (v : ℤ) else (v : ℤ) - 2 ^ (32 - sh)) := by
  simp only [jsToInt32, jsToUint32I]
  rcases hsh with rfl | rfl | rfl | rfl <;>
    (norm_num at hv ⊢; split_ifs <;> omega)

theorem parseSignedHex_signExt (hex : List Char) (B : ℕ) (hB1 : 1 ≤ B) (hB4 : B ≤ 4)
    (hlen : hex.length = B * 2) :
    parseSignedHex hex B =
      (if parseHexNat hex < 2 ^ (B * 8 - 1) then (parseHexNat hex : ℤ)
       else (parseHexNat hex : ℤ) - 2 ^ (B * 8)) := by
  have hv : parseHexNat hex < 2 ^ (B * 8) := by
    have h1 := parseHexNat_lt hex
    rw [hlen] at h1
    calc parseHexNat hex < 16 ^ (B * 2) := h1
      _ = 2 ^ (B * 8) := by
        rw [show (16 : ℕ) = 2 ^ 4 by norm_num, ← pow_mul]
        ring_nf
  set v := parseHexNat hex with hvdef
  simp only [parseSignedHex, jsShrA, jsShl]
  rw [← hvdef]
  have hcount : jsShiftCount (32 - (B : ℤ) * 8) = 32 - B * 8 := by
    rw [jsShiftCount_small _ (by omega) (by omega)]
    omega
  rw [hcount, jsToInt32_idem]
  have hsh : 32 - B * 8 = 0 ∨ 32 - B * 8 = 8 ∨ 32 - B * 8 = 16 ∨ 32 - B * 8 = 24 := by
    interval_cases B <;> omega
  have hcore := int32_shift_core v (32 - B * 8) hsh
    (by rw [show 32 - (32 - B * 8) = B * 8 by omega]; exact hv)
  rw [show 32 - (32 - B * 8) = B * 8 by omega] at hcore
  exact hcore

/-! ## Step scaling (C2, C10) -/

theorem nibble_ops : ∀ q r : Fin 16,
    ((16 * (q : ℕ) + r) &&& 0x0f) = r ∧ (((16 * (q : ℕ) + r) &&& 0xf0) >>> 4) = q := by
  decide

theorem decodeStepValue_inRange (b : ℕ) (hb : b ≤ 255) :
    decodeStepValue (b : ℤ) = .ok (specStepScale b) := by
  have hq : b / 16 < 16 := by omega
  have hr : b % 16 < 16 := by omega
  have hsplit : b = 16 * (b / 16) + b % 16 := by omega
  have hops := nibble_ops ⟨b / 16, hq⟩ ⟨b % 16, hr⟩
  simp only [Fin.val_mk] at hops
  unfold decodeStepValue
  rw [if_neg (by omega)]
  rw [Int.toNat_natCast]
  have h1 : b &&& 0x0f = b % 16 := by
    conv_lhs => rw [hsplit]
    exact hops.1
  have h2 : (b &&& 0xf0) >>> 4 = b / 16 := by
    conv_lhs => rw [hsplit]
    exact hops.2
  rw [h1, h2]
  unfold getStepValueCoefficient
  rw [if_neg (by omega)]
  rw [Int.toNat_natCast]
  rfl

/-- C2: for every step byte b in [0, 255], the derived scale is (low nibble)
times the table entry selected by the high nibble; `specStepScale 0` is 0, so
byte 0x00 yields scale 0; and whenever the step scale decodes to 0, `decodePv`
returns the parsed signed wire integer unchanged. -/
theorem step_scaling :
    (∀ b : ℕ, b ≤ 255 → decodeStepValue (b : ℤ) = .ok (specStepScale b)) ∧
    specStepScale 0 = 0 ∧
    (∀ (pv : List Char) (md : Md), decodeStepValue md.st = .ok 0 →
      decodePv pv md =
        .ok ((parseSignedHex (convertEndian pv) ((convertEndian pv).length / 2) : ℤ) : ℚ)) := by
  refine ⟨decodeStepValue_inRange, ?_, ?_⟩
  · simp [specStepScale]
  · intro pv md h
    unfold decodePv
    rw [h]
    simp

/-- Witness for C2 at the concrete step byte 0xF5 (scale 5 * 0.1) and a
concrete scale-0 decode. -/
theorem step_scaling_witness :
    decodeStepValue ((245 : ℕ) : ℤ) = .ok (specStepScale 245) ∧
    decodePv ['0', '4'] ⟨0, some ['0', '0']⟩ =
      .ok ((parseSignedHex (convertEndian ['0', '4'])
        ((convertEndian ['0', '4']).length / 2) : ℤ) : ℚ) :=
  ⟨step_scaling.1 245 (by norm_num),
   step_scaling.2.2 ['0', '4'] ⟨0, some ['0', '0']⟩
     (by simp [decodeStepValue, getStepValueCoefficient])⟩

/-- C10: `decodeStepValue` returns normally exactly for step bytes in
[0, 255]; within that range the coefficient index `(b & 0xF0) >> 4` always
lies in [0, 15], so `getStepValueCoefficient`'s range-error branch is
unreachable from `decodeStepValue`'s guarded call. -/
theorem step_totality :
    (∀ b : ℤ, (decodeStepValue b).isOk = true ↔ (0 ≤ b ∧ b ≤ 255)) ∧
    (∀ b : ℤ, 0 ≤ b → b ≤ 255 →
      (getStepValueCoefficient (((b.toNat &&& 0xf0) >>> 4 : ℕ) : ℤ)).isOk = true) := by
  have hco : ∀ b : ℤ, 0 ≤ b → b ≤ 255 →
      (getStepValueCoefficient (((b.toNat &&& 0xf0) >>> 4 : ℕ) : ℤ)).isOk = true := by
    intro b h0 h255
    have hle : (b.toNat &&& 0xf0) ≤ 240 := Nat.and_le_right
    have hidx : (b.toNat &&& 0xf0) >>> 4 < 16 := by
      rw [Nat.shiftRight_eq_div_pow]
      omega
    unfold getStepValueCoefficient
    rw [if_neg (by omega)]
    rfl
  refine ⟨?_, hco⟩
  intro b
  constructor
  · intro h
    by_contra hc
    have : b < 0 ∨ (0xff : ℤ) < b := by omega
    unfold decodeStepValue at h
    rw [if_pos this] at h
    simp [Except.isOk, Except.toBool] at h
  · intro ⟨h0, h255⟩
    have hb : b = ((b.toNat : ℕ) : ℤ) := by omega
    have := decodeStepValue_inRange b.toNat (by omega)
    rw [← hb] at this
    rw [this]
    rfl

/-! ## Codec round trip (C1) -/

theorem ratTrunc_intCast (k : ℤ) : ratTrunc ((k : ℤ) : ℚ) = k := by
  unfold ratTrunc
  split_ifs with h
  · exact_mod_cast Int.floor_intCast k
  · exact_mod_cast Int.ceil_intCast k

theorem pow16_eq_pow2 (B : ℕ) : (16 : ℕ) ^ (B * 2) = 2 ^ (B * 8) := by
  rw [show (16 : ℕ) = 2 ^ 4 by norm_num, ← pow_mul]
  ring_nf

theorem emod_signed_range (n : ℤ) (K : ℤ) (hK : 0 < K)
    (hlo : -K ≤ n) (hhi : n < K) :
    n % (2 * K) = (if n % (2 * K) < K then n else n + 2 * K) := by
  by_cases h : 0 ≤ n
  · rw [Int.emod_eq_of_lt h (by omega)]
    rw [if_pos hhi]
  · have h1 : (n + 2 * K) % (2 * K) = n % (2 * K) := by
      rw [show n + 2 * K = n + 2 * K * 1 by ring, Int.add_mul_emod_self_left]
    have h2 : (n + 2 * K) % (2 * K) = n + 2 * K :=
      Int.emod_eq_of_lt (by omega) (by omega)
    rw [← h1, h2, if_neg (by omega)]

/-- C1 (amended): for every value and metadata with a non-null max-length
string of 1 to 4 bytes, a decodable step scale, and a wire integer (the value
itself for scale 0 — necessarily an integer to be representable — otherwise
`trunc(value / step)`) that fits the field's signed range, encoding then
decoding returns the value truncated to the step granularity: the value
itself for scale 0, and `trunc(value / step) * step` otherwise. -/
theorem codec_roundtrip (value : ℚ) (md : Md) (m : List Char) (B : ℕ) (s : ℚ)
    (hmx : md.mx = some m) (hlen : m.length = B * 2) (hB1 : 1 ≤ B) (hB4 : B ≤ 4)
    (hs : decodeStepValue md.st = .ok s)
    (hint : s = 0 → value = (ratTrunc value : ℚ))
    (hlo : -(2 ^ (B * 8 - 1) : ℤ) ≤ wireInt value s)
    (hhi : wireInt value s < 2 ^ (B * 8 - 1)) :
    ∃ pv, encodePv value md = .ok pv ∧
      decodePv pv md = .ok (if s = 0 then value else (ratTrunc (value / s) : ℚ) * s) := by
  set n : ℤ := wireInt value s with hn
  set pvNumber : ℚ := if s = 0 then value else (ratTrunc (value / s) : ℚ) with hpv
  have hB2 : m.length / 2 = B := by omega
  have henc : encodePv value md = .ok (convertEndian (toSignedHex pvNumber B)) := by
    simp only [encodePv, hs, hmx, hB2]
  refine ⟨convertEndian (toSignedHex pvNumber B), henc, ?_⟩
  -- the encoded hex string and its parse
  have hspec := toSignedHex_spec pvNumber B hB1
  have htrunc : ratTrunc pvNumber = n := by
    rw [hpv, hn]
    unfold wireInt
    by_cases h0 : s = 0
    · simp [h0]
    · simp only [h0, if_false]
      exact ratTrunc_intCast _
  have hu : (jsToUint32 pvNumber : ℤ) = n % 2 ^ 32 := by
    unfold jsToUint32
    rw [htrunc]
    exact Int.toNat_of_nonneg (Int.emod_nonneg _ (by norm_num))
  -- decoding: undo the endian swap
  have hlen2 : 2 ∣ (toSignedHex pvNumber B).length := ⟨B, by rw [hspec.2]; ring⟩
  have hswap : convertEndian (convertEndian (toSignedHex pvNumber B)) =
      toSignedHex pvNumber B := convertEndian_convertEndian _ hlen2
  have hswaplen : (convertEndian (toSignedHex pvNumber B)).length = B * 2 := by
    rw [convertEndian_length, hspec.2]
  -- the parsed signed value is exactly the wire integer
  have hparse : (parseHexNat (toSignedHex pvNumber B) : ℤ) = n % 2 ^ (B * 8) := by
    rw [hspec.1]
    push_cast
    rw [hu]
    rw [show (16 : ℤ) ^ (B * 2) = 2 ^ (B * 8) by
      rw [show (16 : ℤ) = 2 ^ 4 by norm_num, ← pow_mul]
      ring_nf]
    exact Int.emod_emod_of_dvd n (pow_dvd_pow 2 (by omega))
  have hKpos : (0 : ℤ) < 2 ^ (B * 8 - 1) := by positivity
  have hM : (2 : ℤ) ^ (B * 8) = 2 * 2 ^ (B * 8 - 1) := by
    rw [← pow_succ']
    congr 1
    omega
  have hbase : parseSignedHex (toSignedHex pvNumber B) B = n := by
    rw [parseSignedHex_signExt _ B hB1 hB4 hspec.2]
    have hrange := emod_signed_range n (2 ^ (B * 8 - 1)) hKpos hlo hhi
    rw [← hM] at hrange
    by_cases hlt : parseHexNat (toSignedHex pvNumber B) < 2 ^ (B * 8 - 1)
    · rw [if_pos hlt]
      have : (parseHexNat (toSignedHex pvNumber B) : ℤ) < 2 ^ (B * 8 - 1) := by
        exact_mod_cast hlt
      rw [hparse] at this
      rw [hparse, hrange, if_pos this]
    · rw [if_neg hlt]
      have : ¬ ((parseHexNat (toSignedHex pvNumber B) : ℤ) < 2 ^ (B * 8 - 1)) := by
        exact_mod_cast hlt
      rw [hparse] at this
      rw [hparse, hrange, if_neg this]
      rw [hM]
      ring
  -- assemble the decode
  have hdec : decodePv (convertEndian (toSignedHex pvNumber B)) md =
      .ok (if s = 0 then ((n : ℤ) : ℚ) else ((n : ℤ) : ℚ) * s) := by
    simp only [decodePv, hs, hswap]
    rw [hspec.2, show B * 2 / 2 = B by omega, hbase]
  rw [hdec]
  have hfinal : (if s = 0 then ((n : ℤ) : ℚ) else ((n : ℤ) : ℚ) * s) =
      (if s = 0 then value else (ratTrunc (value / s) : ℚ) * s) := by
    by_cases h0 : s = 0
    · rw [if_pos h0, if_pos h0, hn]
      unfold wireInt
      rw [if_pos h0]
      exact (hint h0).symm
    · rw [if_neg h0, if_neg h0, hn]
      unfold wireInt
      rw [if_neg h0]
  rw [hfinal]

theorem decodeStepValue_zero : decodeStepValue 0 = .ok 0 := by
  simp [decodeStepValue, getStepValueCoefficient]

/-- C1 counterexample: the claim as stated quantifies over every metadata
whose field is wide enough for the value, but the codec is 32-bit.  With a
5-byte field (mx "0000000000", step byte 0) and value 4294967296 = 2^32 —
representable in 5 signed bytes — encode yields the all-zero string and
decode returns 0, not 4294967296. -/
theorem codec_roundtrip_counterexample :
    encodePv (4294967296 : ℚ) ⟨0, some ['0', '0', '0', '0', '0', '0', '0', '0', '0', '0']⟩ =
      .ok ['0', '0', '0', '0', '0', '0', '0', '0', '0', '0'] ∧
    decodePv ['0', '0', '0', '0', '0', '0', '0', '0', '0', '0']
      ⟨0, some ['0', '0', '0', '0', '0', '0', '0', '0', '0', '0']⟩ = .ok 0 ∧
    (4294967296 : ℚ) ≠ 0 := by
  have h1 : ratTrunc (4294967296 : ℚ) = 4294967296 := by
    rw [show (4294967296 : ℚ) = ((4294967296 : ℤ) : ℚ) by norm_num, ratTrunc_intCast]
  have h2 : jsToUint32 (4294967296 : ℚ) = 0 := by
    unfold jsToUint32
    rw [h1]
    decide
  have h3 : toSignedHex (4294967296 : ℚ) 5 = ['0', '0', '0', '0', '0', '0', '0', '0', '0', '0'] := by
    unfold toSignedHex
    rw [h2]
    decide
  refine ⟨?_, ?_, by norm_num⟩
  · simp only [encodePv, decodeStepValue_zero, if_true]
    rw [show (['0', '0', '0', '0', '0', '0', '0', '0', '0', '0'] : List Char).length / 2 = 5
      by decide]
    rw [h3]
    rfl
  · simp only [decodePv, decodeStepValue_zero, if_true]
    rw [show parseSignedHex (convertEndian ['0', '0', '0', '0', '0', '0', '0', '0', '0', '0'])
        ((convertEndian ['0', '0', '0', '0', '0', '0', '0', '0', '0', '0']).length / 2) = 0
      by decide]
    simp

/-- Witness for C1 at the concrete input: value 5, step byte 0, one-byte
field (mx "02"). -/
theorem codec_roundtrip_witness :
    ∃ pv, encodePv 5 ⟨0, some ['0', '2']⟩ = .ok pv ∧
      decodePv pv ⟨0, some ['0', '2']⟩ =
        .ok (if (0 : ℚ) = 0 then 5 else (ratTrunc (5 / (0 : ℚ)) : ℚ) * 0) := by
  have h5 : ratTrunc (5 : ℚ) = 5 := by
    rw [show (5 : ℚ) = ((5 : ℤ) : ℚ) by norm_num, ratTrunc_intCast]
  have hw : wireInt 5 0 = 5 := by
    rw [show wireInt 5 0 = ratTrunc 5 by simp [wireInt], h5]
  exact codec_roundtrip 5 ⟨0, some ['0', '2']⟩ ['0', '2'] 1 0 rfl rfl (by norm_num) (by norm_num)
    decodeStepValue_zero (fun _ => by rw [h5]; norm_num) (by rw [hw]; norm_num)
    (by rw [hw]; norm_num)

/-- Witness for C10 at the concrete step byte 245. -/
theorem step_totality_witness :
    (decodeStepValue 245).isOk = true ∧
    (getStepValueCoefficient ((((245 : ℤ).toNat &&& 0xf0) >>> 4 : ℕ) : ℤ)).isOk = true :=
  ⟨(step_totality.1 245).mpr (by norm_num), step_totality.2 245 (by norm_num) (by norm_num)⟩

/-! ## Read-only extraction of absent paths (C6) -/

theorem scan_rel (ts : List PTree) (k : String) :
    (∀ ch, scanN ts k false = .descend ch → scanS ts k false = .descend ch) ∧
    (scanN ts k false = .miss → scanS ts k false = .miss) ∧
    (∀ v m, scanN ts k false ≠ .leafHit v m) ∧
    (∀ v m, scanN ts k true = .leafHit v m → ∃ v', scanS ts k true = .leafHit v') := by
  induction ts with
  | nil => refine ⟨?_, ?_, ?_, ?_⟩ <;> simp [scanN, scanS]
  | cons t rest ih =>
    obtain ⟨pn, pv, md, pch⟩ := t
    cases pch with
    | some ch0 =>
      by_cases hpn : pn = k
      · refine ⟨?_, ?_, ?_, ?_⟩ <;> simp [scanN, scanS, hpn]
      · refine ⟨?_, ?_, ?_, ?_⟩ <;> simp only [scanN, scanS, hpn, if_false] <;>
          [exact ih.1; exact ih.2.1; exact ih.2.2.1; exact ih.2.2.2]
    | none =>
      cases pv with
      | none =>
        refine ⟨?_, ?_, ?_, ?_⟩ <;> simp only [scanN, scanS] <;>
          [exact ih.1; exact ih.2.1; exact ih.2.2.1; exact ih.2.2.2]
      | some v0 =>
        cases md with
        | some m0 =>
          by_cases hpn : pn = k
          · refine ⟨?_, ?_, ?_, ?_⟩ <;>
              simp only [scanN, scanS, hpn, true_and, and_true, and_false, if_false, if_true] <;>
              first
                | exact ih.1
                | exact ih.2.1
                | exact ih.2.2.1
                | (intro v m h; exact ⟨v0, rfl⟩)
          · refine ⟨?_, ?_, ?_, ?_⟩ <;>
              simp only [scanN, scanS, hpn, false_and, if_false] <;>
              [exact ih.1; exact ih.2.1; exact ih.2.2.1; exact ih.2.2.2]
        | none =>
          by_cases hpn : pn = k
          · refine ⟨?_, ?_, ?_, ?_⟩ <;>
              simp only [scanN, scanS, hpn, true_and, and_true, and_false, if_false, if_true] <;>
              first
                | exact ih.1
                | exact ih.2.1
                | exact ih.2.2.1
                | (intro v m h; exact ⟨v0, rfl⟩)
          · refine ⟨?_, ?_, ?_, ?_⟩ <;>
              simp only [scanN, scanS, hpn, false_and, if_false] <;>
              [exact ih.1; exact ih.2.1; exact ih.2.2.1; exact ih.2.2.2]

theorem walkNE_some_imp_walkS_some :
    ∀ (path : List String) (ts : List PTree) (r : List String × List Char × Md),
      walkNE ts path = some r → ∃ v', walkS ts path = some v' := by
  intro path
  induction path with
  | nil => intro ts r h; simp [walkNE] at h
  | cons k rest ih =>
    intro ts r h
    cases hempty : rest.isEmpty with
    | true =>
      have hrest : rest = [] := List.isEmpty_iff.mp hempty
      subst hrest
      simp only [walkNE, List.isEmpty_nil] at h
      simp only [walkS, List.isEmpty_nil]
      cases hscan : scanN ts k true with
      | descend ch =>
        simp only [hscan] at h
        simp [walkNE] at h
      | leafHit v m =>
        obtain ⟨v', hv'⟩ := (scan_rel ts k).2.2.2 v m hscan
        rw [hv']
        exact ⟨v', rfl⟩
      | miss =>
        simp only [hscan] at h
        simp [walkNE] at h
    | false =>
      simp only [walkNE, hempty] at h
      simp only [walkS, hempty]
      cases hscan : scanN ts k false with
      | descend ch =>
        simp only [hscan] at h
        rw [(scan_rel ts k).1 ch hscan]
        cases hrec : walkNE ch rest with
        | none =>
          simp only [hrec] at h
          exact absurd h (by simp)
        | some r2 => exact ih ch r2 hrec
      | leafHit v m => exact absurd hscan ((scan_rel ts k).2.2.1 v m)
      | miss =>
        simp only [hscan] at h
        rw [(scan_rel ts k).2.1 hscan]
        exact ih ts r h

/-- C6 (amended): for every response snapshot and every path that does not
resolve to a leaf (witnessed by `extractValueString` returning the absent
value `undefined`), `extractValueString` is indeed non-fatal, but
`extractValueInt` and `extractValueFloat` raise an error instead of
returning an absent value. -/
theorem extract_absent (rd : RespData) (fr path : String)
    (h : extractValueString rd fr path = none) :
    (∃ e, extractValueInt rd fr path = .error e) ∧
    (∃ e, extractValueFloat rd fr path = .error e) := by
  cases rd with
  | none =>
    exact ⟨⟨"No responses object found", rfl⟩, ⟨"No responses object found", rfl⟩⟩
  | some rs =>
    cases hsel : selectFrame rs fr with
    | none =>
      simp only [extractValueInt, extractValueFloat, extractValueNumber, hsel]
      exact ⟨⟨_, rfl⟩, ⟨_, rfl⟩⟩
    | some ts =>
      simp only [extractValueString, hsel] at h
      have hNE : walkNE ts (jsSplit '/' path) = none := by
        cases hne : walkNE ts (jsSplit '/' path) with
        | none => rfl
        | some r =>
          obtain ⟨v', hv'⟩ := walkNE_some_imp_walkS_some (jsSplit '/' path) ts r hne
          rw [hv'] at h
          exact absurd h (by simp)
      simp only [extractValueInt, extractValueFloat, extractValueNumber, hsel, hNE]
      exact ⟨⟨_, rfl⟩, ⟨_, rfl⟩⟩

/-- C6 counterexample: on a snapshot whose frame has no children, the path
"a" does not resolve, `extractValueString` returns the absent value, yet
`extractValueInt` and `extractValueFloat` raise an error rather than
returning undefined. -/
theorem extract_absent_counterexample :
    extractValueString (some [⟨"f", []⟩]) "f" "a" = none ∧
    extractValueInt (some [⟨"f", []⟩]) "f" "a" = .error "No value found for path:a" ∧
    extractValueFloat (some [⟨"f", []⟩]) "f" "a" = .error "No value found for path:a" :=
  ⟨rfl, rfl, rfl⟩

/-- Witness for C6 on the same concrete absent path. -/
theorem extract_absent_witness :
    (∃ e, extractValueInt (some [⟨"f", []⟩]) "f" "a" = .error e) ∧
    (∃ e, extractValueFloat (some [⟨"f", []⟩]) "f" "a" = .error e) :=
  extract_absent (some [⟨"f", []⟩]) "f" "a" rfl

/-! ## Humidify interlock (C5) -/

theorem forceAutoMap_iff (m : ℤ) :
    DaikinDeviceAPAttributes.DaikinModeAPForceAutoHumidifyMap m = true ↔ (m = 0 ∨ m = 5) := by
  simp [DaikinDeviceAPAttributes.DaikinModeAPForceAutoHumidifyMap]

/-- C5: the per-mode force-auto-humidify table holds exactly for AP modes
Auto (0) and Throat (5), and for every decoded snapshot whose current
operating mode is such a mode, `getHumidifyLevel` returns `Auto = 100`
regardless of any stored fixed level `p_13`. -/
theorem humidify_interlock :
    (∀ m : ℤ, DaikinDeviceAPAttributes.DaikinModeAPForceAutoHumidifyMap m = true ↔
      (m = 0 ∨ m = 5)) ∧
    (∀ (response : RespData) (m : ℤ),
      DaikinDeviceAPAttributes.getOperationMode response = .ok m →
      (m = 0 ∨ m = 5) →
      DaikinDeviceAPAttributes.getHumidifyLevel response = .ok 100) := by
  refine ⟨forceAutoMap_iff, ?_⟩
  intro response m hmode hm
  have hmap : DaikinDeviceAPAttributes.DaikinModeAPForceAutoHumidifyMap m = true :=
    (forceAutoMap_iff m).mpr hm
  simp only [DaikinDeviceAPAttributes.getHumidifyLevel, hmode, hmap, if_true]

theorem decodePvToInt_zeroByte :
    decodePvToInt ['0', '0'] ⟨0, some ['0', '0']⟩ = .ok 0 := by
  simp only [decodePvToInt, decodePv, decodeStepValue_zero, if_true]
  rw [show parseSignedHex (convertEndian ['0', '0'])
    ((convertEndian ['0', '0']).length / 2) = 0 by decide]
  rw [show ((0 : ℤ) : ℚ) = ((0 : ℤ) : ℚ) by rfl, ratTrunc_intCast]

/-- Witness for C5 on the fixture snapshot: mode Auto (0) under fixed
humidify with a stored fixed level 3 still decodes to humidify Auto. -/
theorem humidify_interlock_witness :
    DaikinDeviceAPAttributes.getHumidifyLevel fixAP = .ok 100 := by
  have hmode : DaikinDeviceAPAttributes.getOperationMode fixAP = .ok 0 := by
    have h1 : DaikinDeviceAPAttributes.getOperationMode fixAP =
        decodePvToInt ['0', '0'] ⟨0, some ['0', '0']⟩ := rfl
    rw [h1, decodePvToInt_zeroByte]
  exact humidify_interlock.2 fixAP 0 hmode (Or.inl rfl)

/-! ## Refresh atomicity (C7) -/

/-- C7: `fetchDeviceStatus` either fails (no transport response, a decode
error, or a falsy decoded MAC address) and leaves the engine fields exactly
as they were, or succeeds and replaces both fields with the fully decoded
snapshot whose MAC address is non-empty — never a partial update. -/
theorem fetch_atomic :
    ∀ (self : EngineState) (q : Option RespData),
      ((fetchDeviceStatus self q).2.isOk = false → (fetchDeviceStatus self q).1 = self) ∧
      ((fetchDeviceStatus self q).2.isOk = true →
        ∃ snap status, q = some snap ∧ getCurrentStatus snap = .ok status ∧
          DaikinDeviceAPAttributes.jsFalsyStr status.macAddress = false ∧
          (fetchDeviceStatus self q).1 =
            { currentState := some status, lastQueryResponse := some snap }) := by
  intro self q
  cases q with
  | none =>
    refine ⟨fun _ => rfl, fun h => absurd h ?_⟩
    simp [fetchDeviceStatus, Except.isOk, Except.toBool]
  | some snap =>
    cases hst : getCurrentStatus snap with
    | error e =>
      refine ⟨fun _ => ?_, fun h => absurd h ?_⟩
      · simp [fetchDeviceStatus, hst]
      · simp [fetchDeviceStatus, hst, Except.isOk, Except.toBool]
    | ok status =>
      cases hmac : DaikinDeviceAPAttributes.jsFalsyStr status.macAddress with
      | true =>
        refine ⟨fun _ => ?_, fun h => absurd h ?_⟩
        · simp [fetchDeviceStatus, hst, hmac]
        · simp [fetchDeviceStatus, hst, hmac, Except.isOk, Except.toBool]
      | false =>
        refine ⟨fun h => absurd h ?_, fun _ => ⟨snap, status, rfl, hst, hmac, ?_⟩⟩
        · simp [fetchDeviceStatus, hst, hmac, Except.isOk, Except.toBool]
        · simp [fetchDeviceStatus, hst, hmac]

/-- Witness for C7: with no transport response, the call fails and the
engine fields are unchanged. -/
theorem fetch_atomic_witness :
    (fetchDeviceStatus ⟨none, none⟩ none).2.isOk = false ∧
    (fetchDeviceStatus ⟨none, none⟩ none).1 = ⟨none, none⟩ :=
  ⟨rfl, (fetch_atomic ⟨none, none⟩ none).1 rfl⟩

/-! ## Percent-to-level mappings (C8) -/

set_option maxHeartbeats 2000000 in
/-- C8: each family's percent-to-level mapping is monotonic with respect to
that family's own ordering of its levels (the source's level-to-percent
table); 0 maps to the family's lowest level and 100 to its highest; and the
bucket thresholds are family-specific — AP at 0/33/66, AC at
0/10/20/30/40/50. -/
theorem percent_level_mapping :
    (∀ p q : ℤ, p ≤ q →
      getPercentFromDaikinFanSpeedAP (getDaikinFanSpeedAPFromPercent p) ≤
        getPercentFromDaikinFanSpeedAP (getDaikinFanSpeedAPFromPercent q)) ∧
    (∀ p q : ℤ, p ≤ q →
      getPercentFromDaikinHumidifyLevelAP (getDaikinHumidifyLevelAPFromPercent p) ≤
        getPercentFromDaikinHumidifyLevelAP (getDaikinHumidifyLevelAPFromPercent q)) ∧
    (∀ p q : ℤ, p ≤ q →
      getPercentFromDaikinFanSpeedAC (getDaikinFanSpeedACFromPercent p) ≤
        getPercentFromDaikinFanSpeedAC (getDaikinFanSpeedACFromPercent q)) ∧
    (∀ p : ℤ,
      getPercentFromDaikinFanSpeedAP (getDaikinFanSpeedAPFromPercent 0) ≤
        getPercentFromDaikinFanSpeedAP (getDaikinFanSpeedAPFromPercent p) ∧
      getPercentFromDaikinFanSpeedAP (getDaikinFanSpeedAPFromPercent p) ≤
        getPercentFromDaikinFanSpeedAP (getDaikinFanSpeedAPFromPercent 100)) ∧
    (∀ p : ℤ,
      getPercentFromDaikinHumidifyLevelAP (getDaikinHumidifyLevelAPFromPercent 0) ≤
        getPercentFromDaikinHumidifyLevelAP (getDaikinHumidifyLevelAPFromPercent p) ∧
      getPercentFromDaikinHumidifyLevelAP (getDaikinHumidifyLevelAPFromPercent p) ≤
        getPercentFromDaikinHumidifyLevelAP (getDaikinHumidifyLevelAPFromPercent 100)) ∧
    (∀ p : ℤ,
      getPercentFromDaikinFanSpeedAC (getDaikinFanSpeedACFromPercent 0) ≤
        getPercentFromDaikinFanSpeedAC (getDaikinFanSpeedACFromPercent p) ∧
      getPercentFromDaikinFanSpeedAC (getDaikinFanSpeedACFromPercent p) ≤
        getPercentFromDaikinFanSpeedAC (getDaikinFanSpeedACFromPercent 100)) ∧
    (getDaikinFanSpeedAPFromPercent 0 = .Silent ∧ getDaikinFanSpeedAPFromPercent 1 = .Speed1 ∧
      getDaikinFanSpeedAPFromPercent 33 = .Speed1 ∧ getDaikinFanSpeedAPFromPercent 34 = .Speed2 ∧
      getDaikinFanSpeedAPFromPercent 66 = .Speed2 ∧ getDaikinFanSpeedAPFromPercent 67 = .Speed3 ∧
      getDaikinFanSpeedAPFromPercent 100 = .Speed3) ∧
    (getDaikinHumidifyLevelAPFromPercent 0 = .Off ∧
      getDaikinHumidifyLevelAPFromPercent 1 = .Low ∧
      getDaikinHumidifyLevelAPFromPercent 33 = .Low ∧
      getDaikinHumidifyLevelAPFromPercent 34 = .Medium ∧
      getDaikinHumidifyLevelAPFromPercent 66 = .Medium ∧
      getDaikinHumidifyLevelAPFromPercent 67 = .High ∧
      getDaikinHumidifyLevelAPFromPercent 100 = .High) ∧
    (getDaikinFanSpeedACFromPercent 0 = .Auto ∧ getDaikinFanSpeedACFromPercent 1 = .Silent ∧
      getDaikinFanSpeedACFromPercent 10 = .Silent ∧ getDaikinFanSpeedACFromPercent 11 = .Speed1 ∧
      getDaikinFanSpeedACFromPercent 20 = .Speed1 ∧ getDaikinFanSpeedACFromPercent 21 = .Speed2 ∧
      getDaikinFanSpeedACFromPercent 30 = .Speed2 ∧ getDaikinFanSpeedACFromPercent 31 = .Speed3 ∧
      getDaikinFanSpeedACFromPercent 40 = .Speed3 ∧ getDaikinFanSpeedACFromPercent 41 = .Speed4 ∧
      getDaikinFanSpeedACFromPercent 50 = .Speed4 ∧ getDaikinFanSpeedACFromPercent 51 = .Speed5 ∧
      getDaikinFanSpeedACFromPercent 100 = .Speed5) := by
  refine ⟨?_, ?_, ?_, ?_, ?_, ?_, by decide, by decide, by decide⟩
  · intro p q h
    unfold getDaikinFanSpeedAPFromPercent
    split_ifs <;> simp only [getPercentFromDaikinFanSpeedAP] <;> omega
  · intro p q h
    unfold getDaikinHumidifyLevelAPFromPercent
    split_ifs <;> simp only [getPercentFromDaikinHumidifyLevelAP] <;> omega
  · intro p q h
    unfold getDaikinFanSpeedACFromPercent
    split_ifs <;> simp only [getPercentFromDaikinFanSpeedAC] <;> omega
  · intro p
    unfold getDaikinFanSpeedAPFromPercent
    split_ifs <;> simp only [getPercentFromDaikinFanSpeedAP] <;> omega
  · intro p
    unfold getDaikinHumidifyLevelAPFromPercent
    split_ifs <;> simp only [getPercentFromDaikinHumidifyLevelAP] <;> omega
  · intro p
    unfold getDaikinFanSpeedACFromPercent
    split_ifs <;> simp only [getPercentFromDaikinFanSpeedAC] <;> omega

/-- Witness for C8 at concrete percents 3 ≤ 50. -/
theorem percent_level_mapping_witness :
    getPercentFromDaikinFanSpeedAP (getDaikinFanSpeedAPFromPercent 3) ≤
      getPercentFromDaikinFanSpeedAP (getDaikinFanSpeedAPFromPercent 50) ∧
    getPercentFromDaikinFanSpeedAC (getDaikinFanSpeedACFromPercent 3) ≤
      getPercentFromDaikinFanSpeedAC (getDaikinFanSpeedACFromPercent 50) :=
  ⟨percent_level_mapping.1 3 50 (by decide), percent_level_mapping.2.2.1 3 50 (by decide)⟩

/-! ## Fragment merge (C4) -/

theorem findChild_none_iff (ts : List PTree) (k : String) :
    findChild ts k = none ↔ ∀ t ∈ ts, t.pn ≠ k := by
  induction ts with
  | nil => simp [findChild]
  | cons t rest ih =>
    by_cases h : t.pn = k
    · simp [findChild, h]
    · simp [findChild, h, ih]

theorem findChild_first_decomp (ts : List PTree) (k : String) (n : PTree)
    (h : findChild ts k = some n) :
    ∃ l r, ts = l ++ n :: r ∧ (∀ x ∈ l, x.pn ≠ k) ∧ n.pn = k := by
  induction ts with
  | nil => simp [findChild] at h
  | cons t rest ih =>
    by_cases hpn : t.pn = k
    · simp only [findChild, hpn, if_true] at h
      cases h
      exact ⟨[], rest, rfl, by simp, hpn⟩
    · simp only [findChild, hpn, if_false] at h
      obtain ⟨l, r, rfl, hfree, hn⟩ := ih h
      exact ⟨t :: l, r, rfl, by simpa [hpn] using hfree, hn⟩

theorem findChild_append (l1 l2 : List PTree) (k : String) :
    findChild (l1 ++ l2) k =
      (match findChild l1 k with
       | some t => some t
       | none => findChild l2 k) := by
  induction l1 with
  | nil => simp [findChild]
  | cons t rest ih =>
    by_cases h : t.pn = k
    · simp [findChild, h]
    · simp [findChild, h, ih]

theorem findChild_middle_hit (l : List PTree) (d : PTree) (r : List PTree) (k : String)
    (hfree : ∀ x ∈ l, x.pn ≠ k) (hd : d.pn = k) :
    findChild (l ++ d :: r) k = some d := by
  rw [findChild_append]
  rw [(findChild_none_iff l k).mpr hfree]
  simp [findChild, hd]

theorem findChild_middle_other (l r : List PTree) (d d' : PTree) (hpn : d'.pn = d.pn)
    (k' : String) (hk : k' ≠ d.pn) :
    findChild (l ++ d' :: r) k' = findChild (l ++ d :: r) k' := by
  rw [findChild_append, findChild_append]
  cases findChild l k' with
  | some t => rfl
  | none =>
    simp only [findChild, hpn]
    rw [if_neg (Ne.symm hk), if_neg (Ne.symm hk)]

theorem obs_nil (ts : List PTree) : obs ts [] = none := by
  simp [obs]

theorem obs_cons (ts : List PTree) (k : String) (rest : List String) :
    obs ts (k :: rest) =
      (match findChild ts k with
       | none => none
       | some n =>
         match rest with
         | [] => n.pv
         | _ =>
           match n.pch with
           | some ch => obs ch rest
           | none => none) := by
  cases rest <;> rfl

theorem obs_chain_self : ∀ (path : List String) (v : List Char), path ≠ [] →
    obs (chainOf path v) path = some v := by
  intro path
  induction path with
  | nil => intro v h; exact absurd rfl h
  | cons k rest ih =>
    intro v _
    cases rest with
    | nil => simp [chainOf, obs, findChild, PTree.pv, PTree.pn]
    | cons k2 r2 =>
      have h1 : obs (chainOf (k :: k2 :: r2) v) (k :: k2 :: r2) =
          obs (chainOf (k2 :: r2) v) (k2 :: r2) := by
        simp [chainOf, obs_cons, findChild, PTree.pn, PTree.pch]
      rw [h1]
      exact ih v (by simp)

theorem obs_chain_ne : ∀ (path q : List String) (v : List Char), q ≠ path →
    obs (chainOf path v) q = none := by
  intro path
  induction path with
  | nil =>
    intro q v _
    cases q with
    | nil => exact obs_nil _
    | cons k' qrest => simp [chainOf, obs_cons, findChild]
  | cons k rest ih =>
    intro q v hq
    cases q with
    | nil => exact obs_nil _
    | cons k' qrest =>
      rw [obs_cons]
      cases rest with
      | nil =>
        by_cases hk : k' = k
        · subst hk
          have hqr : qrest ≠ [] := fun h => hq (by rw [h])
          simp only [chainOf, findChild, PTree.pn, if_pos rfl]
          cases qrest with
          | nil => exact absurd rfl hqr
          | cons a b => simp [PTree.pch]
        · simp [chainOf, findChild, PTree.pn, Ne.symm hk]
      | cons k2 r2 =>
        rw [show chainOf (k :: k2 :: r2) v = [.mk k none none (some (chainOf (k2 :: r2) v))]
          from rfl]
        by_cases hk : k' = k
        · subst hk
          simp only [findChild, PTree.pn, if_pos rfl]
          cases qrest with
          | nil => simp [PTree.pv]
          | cons a b =>
            simp only [PTree.pch]
            exact ih (a :: b) v (fun h => hq (by rw [h]))
        · simp [findChild, PTree.pn, Ne.symm hk]

theorem combineObject_singleton (dst : List PTree) (s : PTree) :
    combineObject dst [s] = combineOne dst s := by
  simp only [combineObject]
  cases h : combineOne dst s with
  | none => rfl
  | some d2 => simp only [combineObject]

theorem combineOne_append (dst : List PTree) (s : PTree)
    (h : ∀ d ∈ dst, d.pn ≠ s.pn) :
    combineOne dst s = some (dst ++ [s]) := by
  obtain ⟨spn, spv, smd, spch⟩ := s
  induction dst with
  | nil => simp [combineOne]
  | cons d rest ih =>
    obtain ⟨dpn, dpv, dmd, dpch⟩ := d
    have hne : dpn ≠ spn := by
      have := h (.mk dpn dpv dmd dpch) (by simp)
      simpa [PTree.pn] using this
    rw [combineOne.eq_def]
    dsimp only
    rw [if_neg hne, ih (fun x hx => h x (by simp [hx]))]
    rfl

theorem combineOne_overwrite (l r : List PTree) (d s : PTree) (v : List Char)
    (hfree : ∀ x ∈ l, x.pn ≠ s.pn) (hd : d.pn = s.pn) (hv : s.pv = some v) :
    combineOne (l ++ d :: r) s = some (l ++ setPvNode d v :: r) := by
  obtain ⟨spn, spv, smd, spch⟩ := s
  simp only [PTree.pv] at hv
  subst hv
  induction l with
  | nil =>
    obtain ⟨dpn, dpv, dmd, dpch⟩ := d
    simp only [PTree.pn] at hd
    rw [List.nil_append, combineOne.eq_def]
    dsimp only
    rw [if_pos hd]
    rfl
  | cons x xs ih =>
    obtain ⟨xpn, xpv, xmd, xpch⟩ := x
    have hne : xpn ≠ spn := by
      have := hfree (.mk xpn xpv xmd xpch) (by simp)
      simpa [PTree.pn] using this
    rw [List.cons_append, combineOne.eq_def]
    dsimp only
    rw [if_neg hne, ih (fun y hy => hfree y (by simp [hy]))]
    rfl

theorem combineOne_recurse (l r : List PTree) (d s : PTree) (sch dch m : List PTree)
    (hfree : ∀ x ∈ l, x.pn ≠ s.pn) (hd : d.pn = s.pn)
    (hspv : s.pv = none) (hspch : s.pch = some sch)
    (hdch : d.pch = some dch) (hm : combineObject dch sch = some m) :
    combineOne (l ++ d :: r) s = some (l ++ setPchNode d m :: r) := by
  obtain ⟨spn, spv, smd, spch⟩ := s
  simp only [PTree.pv] at hspv
  simp only [PTree.pch] at hspch
  subst hspv
  subst hspch
  induction l with
  | nil =>
    obtain ⟨dpn, dpv, dmd, dpch⟩ := d
    simp only [PTree.pn] at hd
    simp only [PTree.pch] at hdch
    subst hdch
    rw [List.nil_append, combineOne.eq_def]
    dsimp only
    rw [if_pos hd, hm]
    rfl
  | cons x xs ih =>
    obtain ⟨xpn, xpv, xmd, xpch⟩ := x
    have hne : xpn ≠ spn := by
      have := hfree (.mk xpn xpv xmd xpch) (by simp)
      simpa [PTree.pn] using this
    rw [List.cons_append, combineOne.eq_def]
    dsimp only
    rw [if_neg hne, ih (fun y hy => hfree y (by simp [hy]))]
    rfl

theorem setPvNode_pn (t : PTree) (v : List Char) : (setPvNode t v).pn = t.pn := by
  cases t; rfl

theorem setPvNode_pv (t : PTree) (v : List Char) : (setPvNode t v).pv = some v := by
  cases t; rfl

theorem setPvNode_pch (t : PTree) (v : List Char) : (setPvNode t v).pch = t.pch := by
  cases t; rfl

theorem setPchNode_pn (t : PTree) (ch : List PTree) : (setPchNode t ch).pn = t.pn := by
  cases t; rfl

theorem setPchNode_pv (t : PTree) (ch : List PTree) : (setPchNode t ch).pv = t.pv := by
  cases t; rfl

theorem setPchNode_pch (t : PTree) (ch : List PTree) : (setPchNode t ch).pch = some ch := by
  cases t; rfl

theorem obs_append_hit (dst ch : List PTree) (k' : String) (qrest : List String)
    (t : PTree) (hf : findChild dst k' = some t) :
    obs (dst ++ ch) (k' :: qrest) = obs dst (k' :: qrest) := by
  rw [obs_cons, obs_cons, findChild_append, hf]

theorem obs_append_miss (dst ch : List PTree) (k' : String) (qrest : List String)
    (hf : findChild dst k' = none) :
    obs (dst ++ ch) (k' :: qrest) = obs ch (k' :: qrest) := by
  rw [obs_cons, obs_cons, findChild_append, hf]

theorem obs_middle_hit (l : List PTree) (d' : PTree) (r : List PTree) (k : String)
    (hfree : ∀ x ∈ l, x.pn ≠ k) (hpn : d'.pn = k) (qrest : List String) :
    obs (l ++ d' :: r) (k :: qrest) =
      (match qrest with
       | [] => d'.pv
       | _ =>
         match d'.pch with
         | some ch => obs ch qrest
         | none => none) := by
  rw [obs_cons, findChild_middle_hit l d' r k hfree hpn]

theorem obs_middle_other (l r : List PTree) (d d' : PTree) (hpn : d'.pn = d.pn)
    (k' : String) (hk : k' ≠ d.pn) (qrest : List String) :
    obs (l ++ d' :: r) (k' :: qrest) = obs (l ++ d :: r) (k' :: qrest) := by
  rw [obs_cons, obs_cons, findChild_middle_other l r d d' hpn k' hk]

theorem compat_cons (ts : List PTree) (k k2 : String) (r2 : List String) :
    compat ts (k :: k2 :: r2) =
      (match findChild ts k with
       | none => true
       | some n =>
         match n.pch with
         | some ch => compat ch (k2 :: r2)
         | none => false) := rfl

theorem chain_merge : ∀ (path : List String) (dst : List PTree) (v : List Char),
    path ≠ [] → compat dst path = true →
    ∃ res, combineObject dst (chainOf path v) = some res ∧
      obs res path = some v ∧
      ∀ q : List String, q ≠ path → obs res q = obs dst q := by
  intro path
  induction path with
  | nil => intro dst v h _; exact absurd rfl h
  | cons k rest ih =>
    intro dst v _ hcompat
    cases hfind : findChild dst k with
    | none =>
      have hchain : ∃ node, chainOf (k :: rest) v = [node] ∧ node.pn = k := by
        cases rest with
        | nil => exact ⟨.mk k (some v) none none, rfl, rfl⟩
        | cons k2 r2 => exact ⟨.mk k none none (some (chainOf (k2 :: r2) v)), rfl, rfl⟩
      obtain ⟨node, hnode, hpn⟩ := hchain
      have hfree : ∀ d ∈ dst, d.pn ≠ node.pn := by
        rw [hpn]; exact (findChild_none_iff dst k).mp hfind
      refine ⟨dst ++ [node], ?_, ?_, ?_⟩
      · rw [hnode, combineObject_singleton, combineOne_append dst node hfree]
      · rw [obs_append_miss dst [node] k rest hfind, ← hnode]
        exact obs_chain_self (k :: rest) v (by simp)
      · intro q hq
        cases q with
        | nil => rw [obs_nil, obs_nil]
        | cons k' qrest =>
          cases hf : findChild dst k' with
          | some t => exact obs_append_hit dst [node] k' qrest t hf
          | none =>
            rw [obs_append_miss dst [node] k' qrest hf, ← hnode,
              obs_chain_ne (k :: rest) (k' :: qrest) v hq, obs_cons, hf]
    | some n =>
      obtain ⟨l, r, hdst, hfreeL, hnpn⟩ := findChild_first_decomp dst k n hfind
      cases rest with
      | nil =>
        subst hdst
        refine ⟨l ++ setPvNode n v :: r, ?_, ?_, ?_⟩
        · rw [show chainOf [k] v = [PTree.mk k (some v) none none] from rfl,
            combineObject_singleton]
          exact combineOne_overwrite l r n (.mk k (some v) none none) v
            (fun x hx => hfreeL x hx) hnpn rfl
        · rw [obs_middle_hit l (setPvNode n v) r k (fun x hx => hfreeL x hx)
            (by rw [setPvNode_pn]; exact hnpn) []]
          exact setPvNode_pv n v
        · intro q hq
          cases q with
          | nil => rw [obs_nil, obs_nil]
          | cons k' qrest =>
            by_cases hk : k' = k
            · subst hk
              have hqr : qrest ≠ [] := fun h => hq (by rw [h])
              rw [obs_middle_hit l (setPvNode n v) r k' (fun x hx => hfreeL x hx)
                  (by rw [setPvNode_pn]; exact hnpn) qrest,
                obs_middle_hit l n r k' (fun x hx => hfreeL x hx) hnpn qrest]
              cases qrest with
              | nil => exact absurd rfl hqr
              | cons a b => simp only [setPvNode_pch]
            · rw [obs_middle_other l r n (setPvNode n v) (setPvNode_pn n v) k'
                (fun h => hk (h.trans hnpn)) qrest]
      | cons k2 r2 =>
        have h1 : compat dst (k :: k2 :: r2) =
            (match n.pch with
             | some ch => compat ch (k2 :: r2)
             | none => false) := by
          rw [compat_cons, hfind]
        cases hpch : n.pch with
        | none =>
          rw [hpch] at h1
          rw [hcompat] at h1
          exact absurd h1 (by simp)
        | some ch =>
          rw [hpch] at h1
          have hcch : compat ch (k2 :: r2) = true := h1.symm.trans hcompat
          obtain ⟨res2, hres2, hobs2, hpres2⟩ := ih ch v (by simp) hcch
          subst hdst
          refine ⟨l ++ setPchNode n res2 :: r, ?_, ?_, ?_⟩
          · rw [show chainOf (k :: k2 :: r2) v =
                [PTree.mk k none none (some (chainOf (k2 :: r2) v))] from rfl,
              combineObject_singleton]
            exact combineOne_recurse l r n
              (.mk k none none (some (chainOf (k2 :: r2) v)))
              (chainOf (k2 :: r2) v) ch res2
              (fun x hx => hfreeL x hx) hnpn rfl rfl hpch hres2
          · rw [obs_middle_hit l (setPchNode n res2) r k (fun x hx => hfreeL x hx)
              (by rw [setPchNode_pn]; exact hnpn) (k2 :: r2)]
            exact hobs2
          · intro q hq
            cases q with
            | nil => rw [obs_nil, obs_nil]
            | cons k' qrest =>
              by_cases hk : k' = k
              · subst hk
                rw [obs_middle_hit l (setPchNode n res2) r k' (fun x hx => hfreeL x hx)
                    (by rw [setPchNode_pn]; exact hnpn) qrest,
                  obs_middle_hit l n r k' (fun x hx => hfreeL x hx) hnpn qrest]
                cases qrest with
                | nil => simp only [setPchNode_pv]
                | cons a b =>
                  have hqr : (a :: b) ≠ (k2 :: r2) := fun h => hq (by rw [h])
                  simp only [setPchNode_pch, hpch]
                  exact hpres2 (a :: b) hqr
              · rw [obs_middle_other l r n (setPchNode n res2) (setPchNode_pn n res2) k'
                  (fun h => hk (h.trans hnpn)) qrest]

theorem compat_single (ts : List PTree) (k : String) : compat ts [k] = true := by
  have h : compat ts [k] =
      (match findChild ts k with
       | none => true
       | some _ => true) := rfl
  rw [h]
  cases findChild ts k <;> rfl

theorem compat_chain_diverge : ∀ (pre : List String) (a b : String)
    (s1 s2 : List String) (v : List Char), a ≠ b →
    compat (chainOf (pre ++ a :: s1) v) (pre ++ b :: s2) = true := by
  intro pre
  induction pre with
  | nil =>
    intro a b s1 s2 v hab
    have hnode : ∃ node, chainOf (a :: s1) v = [node] ∧ node.pn = a := by
      cases s1 with
      | nil => exact ⟨.mk a (some v) none none, rfl, rfl⟩
      | cons x xs => exact ⟨.mk a none none (some (chainOf (x :: xs) v)), rfl, rfl⟩
    obtain ⟨node, hn, hpn⟩ := hnode
    rw [List.nil_append, List.nil_append, hn]
    have hfc : findChild [node] b = none := by
      simp [findChild, hpn, hab]
    cases s2 with
    | nil => exact compat_single [node] b
    | cons y ys => rw [compat_cons, hfc]
  | cons k pre' ih =>
    intro a b s1 s2 v hab
    have hch : chainOf (k :: (pre' ++ a :: s1)) v =
        [.mk k none none (some (chainOf (pre' ++ a :: s1) v))] := by
      cases hpp : pre' ++ a :: s1 with
      | nil => simp at hpp
      | cons x xs => rfl
    rw [List.cons_append, List.cons_append, hch]
    cases hq : pre' ++ b :: s2 with
    | nil => simp at hq
    | cons y ys =>
      rw [compat_cons]
      have hfc : findChild [PTree.mk k none none (some (chainOf (pre' ++ a :: s1) v))] k =
          some (.mk k none none (some (chainOf (pre' ++ a :: s1) v))) := by
        simp [findChild, PTree.pn]
      rw [hfc]
      show compat (chainOf (pre' ++ a :: s1) v) (y :: ys) = true
      rw [← hq]
      exact ih a b s1 s2 v hab

theorem diverge_ne (pre : List String) (a b : String) (s1 s2 : List String)
    (hab : a ≠ b) : pre ++ a :: s1 ≠ pre ++ b :: s2 := by
  intro h
  have h2 : a :: s1 = b :: s2 := by
    induction pre with
    | nil => exact h
    | cons x xs ih =>
      rw [List.cons_append, List.cons_append] at h
      exact ih (List.tail_eq_of_cons_eq h)
  injection h2 with h3 _
  exact hab h3

/-- C4: `combineObject` (mergeTrees) processes each source child by appending
it when the destination has no same-named child, overwriting the matched
child's leaf value when the source child is a leaf, and recursing into the
matched child's children when it is a branch; consequently merging a
single-leaf chain patch changes only the targeted leaf (the patched path
reads back the new value and every other observed path is unchanged), and
merging two single-leaf patches whose paths diverge yields a tree carrying
both leaves. -/
theorem combineObject_spec :
    (∀ (dst : List PTree) (s : PTree),
       (∀ d ∈ dst, d.pn ≠ s.pn) → combineOne dst s = some (dst ++ [s])) ∧
    (∀ (l r : List PTree) (d s : PTree) (v : List Char),
       (∀ x ∈ l, x.pn ≠ s.pn) → d.pn = s.pn → s.pv = some v →
       combineOne (l ++ d :: r) s = some (l ++ setPvNode d v :: r)) ∧
    (∀ (l r : List PTree) (d s : PTree) (sch dch m : List PTree),
       (∀ x ∈ l, x.pn ≠ s.pn) → d.pn = s.pn → s.pv = none → s.pch = some sch →
       d.pch = some dch → combineObject dch sch = some m →
       combineOne (l ++ d :: r) s = some (l ++ setPchNode d m :: r)) ∧
    (∀ (path : List String) (dst : List PTree) (v : List Char),
       path ≠ [] → compat dst path = true →
       ∃ res, combineObject dst (chainOf path v) = some res ∧
         obs res path = some v ∧
         ∀ q : List String, q ≠ path → obs res q = obs dst q) ∧
    (∀ (pre : List String) (a b : String) (s1 s2 : List String) (v1 v2 : List Char),
       a ≠ b →
       ∃ res, combineObject (chainOf (pre ++ a :: s1) v1)
           (chainOf (pre ++ b :: s2) v2) = some res ∧
         obs res (pre ++ a :: s1) = some v1 ∧
         obs res (pre ++ b :: s2) = some v2) := by
  refine ⟨combineOne_append, combineOne_overwrite, combineOne_recurse, chain_merge, ?_⟩
  intro pre a b s1 s2 v1 v2 hab
  have hcompat := compat_chain_diverge pre a b s1 s2 v1 hab
  obtain ⟨res, hcomb, hobs2, hpres⟩ :=
    chain_merge (pre ++ b :: s2) (chainOf (pre ++ a :: s1) v1) v2 (by simp) hcompat
  refine ⟨res, hcomb, ?_, hobs2⟩
  rw [hpres (pre ++ a :: s1) (diverge_ne pre a b s1 s2 hab)]
  exact obs_chain_self (pre ++ a :: s1) v1 (by simp)

/-- Witness for C4: merging the operation-sound leaf patch into the
cooling-temperature leaf patch (both under `e_1002`) yields a tree carrying
both leaves. -/
theorem combineObject_spec_witness :
    ∃ res, combineObject (chainOf (["e_1002"] ++ "e_3001" :: ["p_02"]) ['3', '3', '0', '0'])
        (chainOf (["e_1002"] ++ "e_3003" :: ["p_2D"]) ['0', '4']) = some res ∧
      obs res (["e_1002"] ++ "e_3001" :: ["p_02"]) = some ['3', '3', '0', '0'] ∧
      obs res (["e_1002"] ++ "e_3003" :: ["p_2D"]) = some ['0', '4'] :=
  combineObject_spec.2.2.2.2 ["e_1002"] "e_3001" "e_3003" ["p_02"] ["p_2D"]
    ['3', '3', '0', '0'] ['0', '4'] (by decide)

theorem encodeIntToPv_four : encodeIntToPv 4 ⟨0, some ['0', '0']⟩ = .ok ['0', '4'] := by
  have hr : ratTrunc (4 : ℚ) = 4 := by
    rw [show (4 : ℚ) = ((4 : ℤ) : ℚ) by norm_num, ratTrunc_intCast]
  have h2 : jsToUint32 ((4 : ℤ) : ℚ) = 4 := by
    unfold jsToUint32
    rw [ratTrunc_intCast]
    decide
  have h3 : toSignedHex ((4 : ℤ) : ℚ) 1 = ['0', '4'] := by
    unfold toSignedHex
    rw [h2]
    decide
  unfold encodeIntToPv
  rw [hr]
  simp only [encodePv, decodeStepValue_zero, if_true]
  rw [show (['0', '0'] : List Char).length / 2 = 1 from by decide]
  rw [h3]
  rfl

theorem encodeFloatToPv_temp :
    encodeFloatToPv ((51 : ℚ) / 2) ⟨245, some ['0', '2', '0', '0']⟩ =
      .ok ['3', '3', '0', '0'] := by
  have hstep0 : decodeStepValue 245 = .ok (((5 : ℕ) : ℚ) * (1e-1 : ℚ)) := rfl
  have hv : (((5 : ℕ) : ℚ) * (1e-1 : ℚ)) = (1 : ℚ) / 2 := by norm_num
  have hstep : decodeStepValue 245 = .ok ((1 : ℚ) / 2) := by rw [hstep0, hv]
  have htr : ratTrunc ((51 : ℚ) / 2 / ((1 : ℚ) / 2)) = 51 := by
    rw [show ((51 : ℚ) / 2 / ((1 : ℚ) / 2)) = ((51 : ℤ) : ℚ) by norm_num, ratTrunc_intCast]
  have h2 : jsToUint32 ((51 : ℤ) : ℚ) = 51 := by
    unfold jsToUint32
    rw [ratTrunc_intCast]
    decide
  have h3 : toSignedHex ((51 : ℤ) : ℚ) 2 = ['0', '0', '3', '3'] := by
    unfold toSignedHex
    rw [h2]
    decide
  unfold encodeFloatToPv
  simp only [encodePv, hstep]
  rw [if_neg (show ¬((1 : ℚ) / 2 = 0) by norm_num)]
  rw [htr]
  rw [show (['0', '2', '0', '0'] : List Char).length / 2 = 2 from by decide]
  rw [h3]
  rfl

theorem combineChains_fix :
    combineObject (chainOf ["e_1002", "e_3003", "p_2D"] ['0', '4'])
      (chainOf ["e_1002", "e_3001", "p_02"] ['3', '3', '0', '0']) =
    some [PTree.mk "e_1002" none none (some
      [PTree.mk "e_3003" none none (some [PTree.mk "p_2D" (some ['0', '4']) none none]),
       PTree.mk "e_3001" none none
         (some [PTree.mk "p_02" (some ['3', '3', '0', '0']) none none])])] := by
  have hinner : combineObject
      [PTree.mk "e_3003" none none (some [PTree.mk "p_2D" (some ['0', '4']) none none])]
      [PTree.mk "e_3001" none none
        (some [PTree.mk "p_02" (some ['3', '3', '0', '0']) none none])] =
      some [PTree.mk "e_3003" none none (some [PTree.mk "p_2D" (some ['0', '4']) none none]),
        PTree.mk "e_3001" none none
          (some [PTree.mk "p_02" (some ['3', '3', '0', '0']) none none])] := by
    rw [combineObject_singleton]
    exact combineOne_append _ _
      (by intro d hd; simp only [List.mem_singleton] at hd; subst hd; decide)
  rw [show chainOf ["e_1002", "e_3003", "p_2D"] ['0', '4'] =
      [PTree.mk "e_1002" none none (some [PTree.mk "e_3003" none none
        (some [PTree.mk "p_2D" (some ['0', '4']) none none])])] from rfl,
    show chainOf ["e_1002", "e_3001", "p_02"] ['3', '3', '0', '0'] =
      [PTree.mk "e_1002" none none (some [PTree.mk "e_3001" none none
        (some [PTree.mk "p_02" (some ['3', '3', '0', '0']) none none])])] from rfl,
    combineObject_singleton]
  exact combineOne_recurse [] []
    (.mk "e_1002" none none (some [PTree.mk "e_3003" none none
      (some [PTree.mk "p_2D" (some ['0', '4']) none none])]))
    (.mk "e_1002" none none (some [PTree.mk "e_3001" none none
      (some [PTree.mk "p_02" (some ['3', '3', '0', '0']) none none])]))
    [PTree.mk "e_3001" none none (some [PTree.mk "p_02" (some ['3', '3', '0', '0']) none none])]
    [PTree.mk "e_3003" none none (some [PTree.mk "p_2D" (some ['0', '4']) none none])]
    _ (fun x hx => absurd hx (List.not_mem_nil x)) rfl rfl rfl rfl hinner


theorem setTargetTemperature_run (rs : List FrameResp) (ts res : List PTree) (t : ℚ)
    (vOp vTemp eOp eT : List Char) (mOp mTemp : Md)
    (hsel : selectFrame rs "/dsiot/edge/adr_0100.dgc_status" = some ts)
    (hwOp : walkNE ts (jsSplit '/' "e_1002/e_3003/p_2D") =
      some (["e_1002", "e_3003", "p_2D"], vOp, mOp))
    (hwT : walkNE ts (jsSplit '/' "e_1002/e_3001/p_02") =
      some (["e_1002", "e_3001", "p_02"], vTemp, mTemp))
    (heOp : encodeIntToPv 4 mOp = .ok eOp)
    (heT : encodeFloatToPv t mTemp = .ok eT)
    (hcomb : combineObject (chainOf ["e_1002", "e_3003", "p_2D"] eOp)
      (chainOf ["e_1002", "e_3001", "p_02"] eT) = some res) :
    setTargetTemperature (some rs) .Cool t 4 = .ok (some res) := by
  have hOp : encodePvInt (some rs) "/dsiot/edge/adr_0100.dgc_status" "e_1002/e_3003/p_2D" 4 =
      .ok (chainOf ["e_1002", "e_3003", "p_2D"] eOp) := by
    simp only [encodePvInt, qEncodePv, hsel, hwOp, heOp]
  have hT : encodePvFloat (some rs) "/dsiot/edge/adr_0100.dgc_status" "e_1002/e_3001/p_02" t =
      .ok (chainOf ["e_1002", "e_3001", "p_02"] eT) := by
    simp only [encodePvFloat, qEncodePv, hsel, hwT, heT]
  rw [show setTargetTemperature (some rs) .Cool t 4 =
      (match encodePvInt (some rs) "/dsiot/edge/adr_0100.dgc_status" "e_1002/e_3003/p_2D"
          4 with
       | .error e => Except.error e
       | .ok a =>
         match encodePvFloat (some rs) "/dsiot/edge/adr_0100.dgc_status"
             "e_1002/e_3001/p_02" t with
         | .error e => Except.error e
         | .ok b =>
           match combineObject a b with
           | some command => Except.ok (some command)
           | none => Except.error "TypeError") from rfl]
  simp only [hOp, hT]
  rw [hcomb]

/-- C3 counterexample: on a snapshot carrying both fields (the `fixAC`
fixture), `setTargetTemperature(Cool, 25.5)` returns a patch that also
contains the operation-sound leaf `e_1002/e_3003/p_2D` (value "04"), so the
cooling-temperature field is not the patch's only leaf. -/
theorem setTargetTemperature_counterexample :
    setTargetTemperature fixAC .Cool ((51 : ℚ) / 2) 4 =
      .ok (some [PTree.mk "e_1002" none none (some
        [PTree.mk "e_3003" none none (some [PTree.mk "p_2D" (some ['0', '4']) none none]),
         PTree.mk "e_3001" none none
           (some [PTree.mk "p_02" (some ['3', '3', '0', '0']) none none])])]) ∧
    obs [PTree.mk "e_1002" none none (some
        [PTree.mk "e_3003" none none (some [PTree.mk "p_2D" (some ['0', '4']) none none]),
         PTree.mk "e_3001" none none
           (some [PTree.mk "p_02" (some ['3', '3', '0', '0']) none none])])]
      ["e_1002", "e_3003", "p_2D"] = some ['0', '4'] ∧
    ["e_1002", "e_3003", "p_2D"] ≠ ["e_1002", "e_3001", "p_02"] := by
  refine ⟨?_, rfl, by decide⟩
  exact setTargetTemperature_run
    [⟨"/dsiot/edge/adr_0100.dgc_status",
      [.mk "e_1002" none none (some
        [.mk "e_3001" none none (some
          [.mk "p_02" (some ['0', '0', '3', '3'])
            (some ⟨0xF5, some ['0', '2', '0', '0']⟩) none]),
         .mk "e_3003" none none (some
          [.mk "p_2D" (some ['0', '4']) (some ⟨0, some ['0', '0']⟩) none])])]⟩]
    [.mk "e_1002" none none (some
      [.mk "e_3001" none none (some
        [.mk "p_02" (some ['0', '0', '3', '3'])
          (some ⟨0xF5, some ['0', '2', '0', '0']⟩) none]),
       .mk "e_3003" none none (some
        [.mk "p_2D" (some ['0', '4']) (some ⟨0, some ['0', '0']⟩) none])])]
    [PTree.mk "e_1002" none none (some
      [PTree.mk "e_3003" none none (some [PTree.mk "p_2D" (some ['0', '4']) none none]),
       PTree.mk "e_3001" none none
         (some [PTree.mk "p_02" (some ['3', '3', '0', '0']) none none])])]
    ((51 : ℚ) / 2) ['0', '4'] ['0', '0', '3', '3'] ['0', '4'] ['3', '3', '0', '0']
    ⟨0, some ['0', '0']⟩ ⟨245, some ['0', '2', '0', '0']⟩
    rfl rfl rfl encodeIntToPv_four encodeFloatToPv_temp combineChains_fix

/-- C3 (amended): for every last-known snapshot in which the
cooling-temperature field `e_1002/e_3001/p_02` and the operation-sound field
`e_1002/e_3003/p_2D` both resolve to metadata-bearing leaves along their full
paths and both encodes succeed, `setTargetTemperature(Cool, t)` returns a
patch carrying exactly two leaves — the cooling-temperature field encoded
from `t` and the operation-sound field encoded from the constant 4 — and no
other path is present in the patch. -/
theorem setTargetTemperature_spec (rs : List FrameResp) (ts : List PTree) (t : ℚ)
    (vOp vTemp eOp eT : List Char) (mOp mTemp : Md)
    (hsel : selectFrame rs "/dsiot/edge/adr_0100.dgc_status" = some ts)
    (hwOp : walkNE ts (jsSplit '/' "e_1002/e_3003/p_2D") =
      some (["e_1002", "e_3003", "p_2D"], vOp, mOp))
    (hwT : walkNE ts (jsSplit '/' "e_1002/e_3001/p_02") =
      some (["e_1002", "e_3001", "p_02"], vTemp, mTemp))
    (heOp : encodeIntToPv 4 mOp = .ok eOp)
    (heT : encodeFloatToPv t mTemp = .ok eT) :
    ∃ cmd, setTargetTemperature (some rs) .Cool t 4 = .ok (some cmd) ∧
      obs cmd ["e_1002", "e_3001", "p_02"] = some eT ∧
      obs cmd ["e_1002", "e_3003", "p_2D"] = some eOp ∧
      ∀ q : List String, q ≠ ["e_1002", "e_3001", "p_02"] →
        q ≠ ["e_1002", "e_3003", "p_2D"] → obs cmd q = none := by
  have hOp : encodePvInt (some rs) "/dsiot/edge/adr_0100.dgc_status" "e_1002/e_3003/p_2D" 4 =
      .ok (chainOf ["e_1002", "e_3003", "p_2D"] eOp) := by
    simp only [encodePvInt, qEncodePv, hsel, hwOp, heOp]
  have hT : encodePvFloat (some rs) "/dsiot/edge/adr_0100.dgc_status" "e_1002/e_3001/p_02" t =
      .ok (chainOf ["e_1002", "e_3001", "p_02"] eT) := by
    simp only [encodePvFloat, qEncodePv, hsel, hwT, heT]
  have hcpt : compat (chainOf ["e_1002", "e_3003", "p_2D"] eOp)
      ["e_1002", "e_3001", "p_02"] = true := by
    exact compat_chain_diverge ["e_1002"] "e_3003" "e_3001" ["p_2D"] ["p_02"] eOp (by decide)
  obtain ⟨res, hcomb, hobsT, hpres⟩ :=
    chain_merge ["e_1002", "e_3001", "p_02"] (chainOf ["e_1002", "e_3003", "p_2D"] eOp) eT
      (by simp) hcpt
  refine ⟨res, ?_, hobsT, ?_, ?_⟩
  · rw [show setTargetTemperature (some rs) .Cool t 4 =
        (match encodePvInt (some rs) "/dsiot/edge/adr_0100.dgc_status" "e_1002/e_3003/p_2D"
            4 with
         | .error e => Except.error e
         | .ok a =>
           match encodePvFloat (some rs) "/dsiot/edge/adr_0100.dgc_status"
               "e_1002/e_3001/p_02" t with
           | .error e => Except.error e
           | .ok b =>
             match combineObject a b with
             | some command => Except.ok (some command)
             | none => Except.error "TypeError") from rfl]
    simp only [hOp, hT]
    rw [hcomb]
  · rw [hpres ["e_1002", "e_3003", "p_2D"] (by decide)]
    exact obs_chain_self ["e_1002", "e_3003", "p_2D"] eOp (by simp)
  · intro q hqT hqOp
    rw [hpres q hqT]
    exact obs_chain_ne ["e_1002", "e_3003", "p_2D"] q eOp hqOp

/-- Witness for C3 (amended) at the `fixAC` fixture with temperature 25.5:
the patch carries the cooling-temperature leaf "3300" and the
operation-sound leaf "04" and nothing else. -/
theorem setTargetTemperature_spec_witness :
    ∃ cmd, setTargetTemperature fixAC .Cool ((51 : ℚ) / 2) 4 = .ok (some cmd) ∧
      obs cmd ["e_1002", "e_3001", "p_02"] = some ['3', '3', '0', '0'] ∧
      obs cmd ["e_1002", "e_3003", "p_2D"] = some ['0', '4'] ∧
      ∀ q : List String, q ≠ ["e_1002", "e_3001", "p_02"] →
        q ≠ ["e_1002", "e_3003", "p_2D"] → obs cmd q = none :=
  setTargetTemperature_spec
    [⟨"/dsiot/edge/adr_0100.dgc_status",
      [.mk "e_1002" none none (some
        [.mk "e_3001" none none (some
          [.mk "p_02" (some ['0', '0', '3', '3'])
            (some ⟨0xF5, some ['0', '2', '0', '0']⟩) none]),
         .mk "e_3003" none none (some
          [.mk "p_2D" (some ['0', '4']) (some ⟨0, some ['0', '0']⟩) none])])]⟩]
    [.mk "e_1002" none none (some
      [.mk "e_3001" none none (some
        [.mk "p_02" (some ['0', '0', '3', '3'])
          (some ⟨0xF5, some ['0', '2', '0', '0']⟩) none]),
       .mk "e_3003" none none (some
        [.mk "p_2D" (some ['0', '4']) (some ⟨0, some ['0', '0']⟩) none])])]
    ((51 : ℚ) / 2) ['0', '4'] ['0', '0', '3', '3'] ['0', '4'] ['3', '3', '0', '0']
    ⟨0, some ['0', '0']⟩ ⟨245, some ['0', '2', '0', '0']⟩
    rfl rfl rfl encodeIntToPv_four encodeFloatToPv_temp
